import Mathlib

/-!
# LessonCraft — formal model of the orchestration and lesson-engine core

This file gives a shallow embedding, in Lean 4, of the parts of the
LessonCraft code base that its specification makes claims about:

* the circuit breaker (`internal/circuitbreaker`);
* the DinD provisioner's image selection and hostname assignment
  (`provisioner`);
* the lesson stores (`api/store`): creation/update versioning and
  paginated listing, for both the in-memory and the document-database
  ("Mongo") implementations;
* the lesson HTTP handlers (`api/lesson_handlers.go`): lesson validation,
  the command-safety filter, and step-output validation;
* the markdown lesson parser (`lesson.SimpleParser`).

Go strings are modelled as `List Char` (`Str`); `len` on a Go string is
byte length, modelled by `utf8Len`.  Wall-clock instants and
`time.Duration` values are modelled as `Int` nanoseconds.  Go's `int` /
`int64` arithmetic is modelled on `Int` (no overflow is reachable in the
quantities involved); Go's truncated division/modulus are `Int.tdiv` /
`Int.tmod`, and the runtime panic on division by zero is made explicit by
`goDiv` / `goMod` returning `Option`.  Functions that can fail return
`Option` / `Except`.
-/

namespace LessonCraft

/-- Go strings, modelled as lists of unicode code points. -/
abbrev Str := List Char

/-- Byte size of one code point in UTF-8 (Go `len` counts bytes). -/
def charUtf8Size (c : Char) : Nat :=
  if c.toNat < 0x80 then 1
  else if c.toNat < 0x800 then 2
  else if c.toNat < 0x10000 then 3
  else 4

/-- Go `len(s)` on a string: the UTF-8 byte length. -/
def utf8Len (s : Str) : Nat :=
  (s.map charUtf8Size).sum

/-- Go `unicode.IsSpace`: white space as recognised by `strings.TrimSpace`. -/
def goIsSpace (c : Char) : Bool :=
  c = ' ' || c = '\t' || c = '\n' || c = Char.ofNat 11 || c = Char.ofNat 12 ||
  c = '\r' || c = Char.ofNat 0x85 || c = Char.ofNat 0xA0 ||
  c = Char.ofNat 0x1680 || (0x2000 ≤ c.toNat && c.toNat ≤ 0x200A) ||
  c = Char.ofNat 0x2028 || c = Char.ofNat 0x2029 || c = Char.ofNat 0x202F ||
  c = Char.ofNat 0x205F || c = Char.ofNat 0x3000

/-- Go `strings.TrimSpace`: drop white space from both ends. -/
def trimSpace (s : Str) : Str :=
  ((s.dropWhile goIsSpace).reverse.dropWhile goIsSpace).reverse

/-- Go `strings.HasPrefix(s, pre)`. -/
def hasPrefix (s pre : Str) : Bool :=
  pre.isPrefixOf s

/-- Go `strings.Contains(s, sub)`. -/
def strContains : Str → Str → Bool
  | s, sub =>
    if sub.isPrefixOf s then true
    else
      match s with
      | [] => false
      | _ :: t => strContains t sub

/-- Go `strings.ToLower`, restricted to the per-rune lowering Lean provides
(agrees with Go on ASCII, which is all the code compares). -/
def toLowerStr (s : Str) : Str :=
  s.map Char.toLower

/-- Go truncated integer division, with the runtime panic on a zero divisor
made explicit. -/
def goDiv (a b : Int) : Option Int :=
  if b = 0 then none else some (Int.tdiv a b)

/-- Go truncated integer remainder, with the runtime panic on a zero divisor
made explicit. -/
def goMod (a b : Int) : Option Int :=
  if b = 0 then none else some (Int.tmod a b)

/-! ## Circuit breaker (`internal/circuitbreaker`) -/

/-- The state enum `circuitbreaker.State`. -/
inductive CBState where
  | closed
  | open_
  | halfOpen
deriving DecidableEq, Repr

/-- The mutable fields of `circuitbreaker.CircuitBreaker`.  Times and
durations are `Int` nanoseconds. -/
structure CircuitBreaker where
  state : CBState
  failureThreshold : Int
  resetTimeout : Int
  halfOpenSuccessThreshold : Int
  failureCount : Int
  successCount : Int
  lastStateChange : Int
deriving DecidableEq, Repr

namespace CircuitBreaker

/-- Defaults of `DefaultOptions()`: threshold 5, reset 10 s, half-open successes 2. -/
def defaultFailureThreshold : Int := 5
def defaultResetTimeout : Int := 10 * 1000000000
def defaultHalfOpenSuccessThreshold : Int := 2

/-- Constructor `NewCircuitBreaker`: non-positive options are replaced by the defaults;
the breaker starts Closed with zero counters. -/
def new (failureThreshold resetTimeout halfOpenSuccessThreshold now : Int) :
    CircuitBreaker :=
  { state := .closed
    failureThreshold :=
      if failureThreshold ≤ 0 then defaultFailureThreshold else failureThreshold
    resetTimeout :=
      if resetTimeout ≤ 0 then defaultResetTimeout else resetTimeout
    halfOpenSuccessThreshold :=
      if halfOpenSuccessThreshold ≤ 0 then defaultHalfOpenSuccessThreshold
      else halfOpenSuccessThreshold
    failureCount := 0
    successCount := 0
    lastStateChange := now }

/-- Transition `setState`: a no-op on the same state; otherwise change state, stamp the
change time and reset both counters. -/
def setState (cb : CircuitBreaker) (newState : CBState) (now : Int) :
    CircuitBreaker :=
  if cb.state = newState then cb
  else
    { cb with
      state := newState
      lastStateChange := now
      failureCount := 0
      successCount := 0 }

/-- Gate `AllowRequest` at instant `now`: returns whether the request may pass and
the (possibly Open→HalfOpen transitioned) breaker. -/
def allowRequest (cb : CircuitBreaker) (now : Int) : Bool × CircuitBreaker :=
  match cb.state with
  | .closed => (true, cb)
  | .open_ =>
    if now - cb.lastStateChange > cb.resetTimeout then
      (true, cb.setState .halfOpen now)
    else
      (false, cb)
  | .halfOpen => (true, cb)

/-- Bookkeeping `RecordResult` at instant `now`; `isErr` is whether the call returned an
error. -/
def recordResult (cb : CircuitBreaker) (isErr : Bool) (now : Int) :
    CircuitBreaker :=
  if isErr then
    let cb := { cb with failureCount := cb.failureCount + 1, successCount := 0 }
    if cb.state = .closed ∧ cb.failureCount ≥ cb.failureThreshold then
      cb.setState .open_ now
    else if cb.state = .halfOpen then
      cb.setState .open_ now
    else cb
  else
    let cb := { cb with successCount := cb.successCount + 1, failureCount := 0 }
    if cb.state = .halfOpen ∧ cb.successCount ≥ cb.halfOpenSuccessThreshold then
      cb.setState .closed now
    else cb

/-- Outcome of `Execute`: either the circuit was open and the operation was
never invoked, or the operation ran and returned `err`. -/
inductive ExecResult where
  | circuitOpen
  | ran (err : Bool)
deriving DecidableEq, Repr

/-- Wrapper `Execute` at instant `now`: gate through `AllowRequest`, run the
operation (whose outcome is `fnErr`) only when admitted, and record its
result. -/
def execute (cb : CircuitBreaker) (fnErr : Bool) (now : Int) :
    ExecResult × CircuitBreaker :=
  let (allowed, cb₁) := cb.allowRequest now
  if allowed then (.ran fnErr, cb₁.recordResult fnErr now)
  else (.circuitOpen, cb₁)

/-- A sequence of recorded results (each with its instant), applied in
order. -/
def applyResults (cb : CircuitBreaker) : List (Bool × Int) → CircuitBreaker
  | [] => cb
  | (isErr, now) :: rest => (cb.recordResult isErr now).applyResults rest

/-- Applies `n` consecutive failures recorded at instant `now`. -/
def recordFailures (cb : CircuitBreaker) (n : Nat) (now : Int) :
    CircuitBreaker :=
  match n with
  | 0 => cb
  | n + 1 => (cb.recordResult true now).recordFailures n now

/-- Applies `n` consecutive successes recorded at instant `now`. -/
def recordSuccesses (cb : CircuitBreaker) (n : Nat) (now : Int) :
    CircuitBreaker :=
  match n with
  | 0 => cb
  | n + 1 => (cb.recordResult false now).recordSuccesses n now

end CircuitBreaker

/-! ## Lesson data model (`lesson` package) -/

/-- The record `lesson.VersionInfo`. -/
structure VersionInfo where
  version : Int
  timestamp : Int
  changeSummary : Str
deriving DecidableEq, Repr

/-- The record `lesson.ContainerConfig` (the fields the modelled code reads). -/
structure ContainerConfig where
  name : Str := []
  image : Str := []
  role : Str := []
  hostname : Str := []
  envs : List Str := []
  networks : List Str := []
  maxProcesses : Int := 0
  maxMemoryMB : Int := 0
  storageSize : Str := []
deriving DecidableEq, Repr

/-- The record `lesson.LessonStep`.  `timeout` is `time.Duration` nanoseconds. -/
structure LessonStep where
  id : Str := []
  content : Str := []
  commands : List Str := []
  expected : Str := []
  image : Str := []
  timeout : Int := 0
  question : Str := []
  maxProcesses : Int := 0
  maxMemoryMB : Int := 0
  storageSize : Str := []
  containers : List ContainerConfig := []
deriving DecidableEq, Repr

/-- The record `lesson.Lesson` (the fields the modelled code reads).  Times are `Int`
nanoseconds since the epoch; `0` plays the role of Go's zero `time.Time`. -/
structure Lesson where
  id : Str := []
  title : Str := []
  description : Str := []
  category : Str := []
  tags : List Str := []
  difficulty : Str := []
  estimatedTime : Int := 0
  defaultImage : Str := []
  defaultMaxProcesses : Int := 0
  defaultMaxMemoryMB : Int := 0
  defaultStorageSize : Str := []
  steps : List LessonStep := []
  version : Int := 0
  versionHistory : List VersionInfo := []
  createdAt : Int := 0
  updatedAt : Int := 0
  currentStep : Int := 0
deriving DecidableEq, Repr

/-! ## Command-safety filter and lesson validation
(`api/lesson_handlers.go`) -/

/-- The `dangerousCommands` deny-list of `isValidCommand` (prefix match). -/
def dangerousCommands : List Str :=
  ["rm -rf /", "rm -rf /*", "rm -rf ~", "rm -rf .", "rm -rf ..",
   "mkfs", "dd if=/dev/zero", ":(){ :|:& };:", "> /dev/sda",
   "chmod -R 777 /", "wget", "curl", "nc", "telnet", "ssh",
   "sudo", "su", "passwd", "shutdown", "reboot", "halt", "poweroff",
   "init 0", "init 6"].map String.toList

/-- The `dangerousPatterns` deny-list of `isValidCommand` (substring
match). -/
def dangerousPatterns : List Str :=
  ["`", "$(", "eval", "exec", "source", "bash -c", "sh -c",
   "python -c", "perl -e", "ruby -e", "php -r", "nc -e",
   "curl | bash", "wget | bash", "> /dev/null 2>&1"].map String.toList

/-- Filter `isValidCommand`: trims, then rejects empty commands, over-long
commands, deny-listed prefixes, deny-listed substrings, and control
characters other than tab, newline and carriage return. -/
def isValidCommand (cmd₀ : Str) : Bool :=
  let cmd := trimSpace cmd₀
  if cmd = [] then false
  else if utf8Len cmd > 1000 then false
  else if dangerousCommands.any (fun d => hasPrefix cmd d) then false
  else if dangerousPatterns.any (fun p => strContains cmd p) then false
  else if cmd.any (fun c =>
      c.toNat < 32 && !(c = '\t') && !(c = '\n') && !(c = '\r')) then false
  else true

/-- The errors `validateLesson` can report (its `fmt.Errorf` messages,
abstracted to their identity and arguments). -/
inductive VError where
  | titleRequired
  | titleTooLong
  | descriptionRequired
  | descriptionTooLong
  | noSteps
  | tooManySteps
  | stepIdRequired (i : Nat)
  | duplicateStepId (id : Str)
  | contentRequired (i : Nat)
  | contentTooLong (i : Nat)
  | expectedWithoutCommands (i : Nat)
  | tooManyCommands (i : Nat)
  | commandTooLong (i j : Nat)
  | invalidCommand (i j : Nat)
  | badTimeout (i : Nat)
deriving DecidableEq, Repr

/-- One hour, as `time.Duration` nanoseconds. -/
def oneHour : Int := 3600 * 1000000000

/-- The per-command loop of `validateLesson` (index `j` runs over the
commands of step `i`). -/
def validateCommands (i : Nat) (j : Nat) : List Str → Option VError
  | [] => none
  | cmd :: rest =>
    if utf8Len cmd > 500 then some (.commandTooLong i j)
    else if !isValidCommand cmd then some (.invalidCommand i j)
    else validateCommands i (j + 1) rest

/-- The per-step loop of `validateLesson`; `seen` is the `seenIDs` set in
arrival order, `i` the zero-based index of the next step. -/
def validateSteps (seen : List Str) (i : Nat) : List LessonStep → Option VError
  | [] => none
  | step :: rest =>
    if step.id = [] then some (.stepIdRequired i)
    else if seen.contains step.id then some (.duplicateStepId step.id)
    else if step.content = [] then some (.contentRequired i)
    else if utf8Len step.content > 5000 then some (.contentTooLong i)
    else if step.expected ≠ [] ∧ step.commands = [] then
      some (.expectedWithoutCommands i)
    else if step.commands.length > 10 then some (.tooManyCommands i)
    else
      match validateCommands i 0 step.commands with
      | some e => some e
      | none =>
        if step.timeout < 0 ∨ step.timeout > oneHour then some (.badTimeout i)
        else validateSteps (step.id :: seen) (i + 1) rest

/-- Validator `validateLesson`: `none` means the lesson passed validation. -/
def validateLesson (l : Lesson) : Option VError :=
  if l.title = [] then some .titleRequired
  else if utf8Len l.title > 100 then some .titleTooLong
  else if l.description = [] then some .descriptionRequired
  else if utf8Len l.description > 500 then some .descriptionTooLong
  else if l.steps.length = 0 then some .noSteps
  else if l.steps.length > 50 then some .tooManySteps
  else validateSteps [] 0 l.steps

/-! ## Step-output validation (`LessonHandler.validateStep`) -/

/-- The responses of the `validateStep` handler, abstracted to the fields
the client can observe. -/
inductive ValidateResponse where
  | indexOutOfRange
  | noExpected
  | valid
  | invalid (expected received : Str)
deriving DecidableEq, Repr

/-- Handler `LessonHandler.validateStep`, after the lesson lookup and the body
decode: bounds-check the step index, accept unconditionally when the step
has no expected output, otherwise compare the trimmed forms and report both
on a mismatch. -/
def validateStep (l : Lesson) (step : Int) (output : Str) : ValidateResponse :=
  if step < 0 ∨ step ≥ l.steps.length then .indexOutOfRange
  else
    let currentStep := l.steps.getD step.toNat {}
    if currentStep.expected = [] then .noExpected
    else
      let normalizedOutput := trimSpace output
      let normalizedExpected := trimSpace currentStep.expected
      if normalizedOutput = normalizedExpected then .valid
      else .invalid normalizedExpected normalizedOutput

/-! ## Markdown lesson parser (`lesson.SimpleParser`) -/

/-- The three fenced-block kinds `simpleBlockRegex` recognises. -/
inductive BlockType where
  | docker
  | expect
  | question
deriving DecidableEq, Repr

/-- The default timeout `SimpleParser.Parse` gives a new step: 5 minutes. -/
def fiveMinutes : Int := 5 * 60 * 1000000000

/-- Step ids of `generateStepID`: `step-a`, `step-b`, … from the zero-based index. -/
def generateStepID (index : Nat) : Str :=
  "step-".toList ++ [Char.ofNat ('a'.toNat + index)]

/-- Helper `parseCommands`: split a docker block into lines, trim each, keep the
non-empty ones. -/
def parseCommands (content : Str) : List Str :=
  ((content.splitOn '\n').map trimSpace).filter (· ≠ [])

/-- The opening fence of each block kind (`simpleBlockRegex`'s literal
part). -/
def blockHeader : BlockType → Str
  | .docker => "```docker\n".toList
  | .expect => "```expect\n".toList
  | .question => "```question\n".toList

/-- Scan for the closing `\n`<code>```</code> fence: returns the content
before it and the rest of the input after it (the non-greedy `(.*?)\n` of
`simpleBlockRegex`). -/
def splitAtCloseFence : Str → Option (Str × Str)
  | [] => none
  | c :: rest =>
    if ("\n```".toList).isPrefixOf (c :: rest) then
      some ([], (c :: rest).drop 4)
    else
      match splitAtCloseFence rest with
      | some (pre, rem) => some (c :: pre, rem)
      | none => none

/-- Try to match one fenced block starting exactly here; on success return
its kind, its captured content, and the input after the closing fence. -/
def matchBlockAt (s : Str) : Option (BlockType × Str × Str) :=
  let try_ (bt : BlockType) : Option (BlockType × Str × Str) :=
    if (blockHeader bt).isPrefixOf s then
      match splitAtCloseFence (s.drop (blockHeader bt).length) with
      | some (content, rest) => some (bt, content, rest)
      | none => none
    else none
  match try_ .docker with
  | some r => some r
  | none =>
    match try_ .expect with
    | some r => some r
    | none => try_ .question

/-- Scan `simpleBlockRegex.FindAllStringSubmatch`: all fenced blocks, leftmost
first, scanning resumes after each match.  Each step of the scan consumes
at least one character, so `fuel = s.length` (supplied by `findBlocks`)
never runs out before the end of the input. -/
def findBlocksAux : Nat → Str → List (BlockType × Str)
  | 0, _ => []
  | _ + 1, [] => []
  | fuel + 1, c :: rest =>
    match matchBlockAt (c :: rest) with
    | some (bt, content, rem) => (bt, content) :: findBlocksAux fuel rem
    | none => findBlocksAux fuel rest

/-- All fenced blocks of the markdown source, in source order. -/
def findBlocks (s : Str) : List (BlockType × Str) :=
  findBlocksAux s.length s

/-- The step-construction state of `SimpleParser.Parse`: the steps built so
far, and the index of the step `currentStep` points at (always the last
one), if any. -/
structure ParseState where
  steps : List LessonStep
  curOpen : Bool
deriving DecidableEq, Repr

/-- Process one fenced block, as the block loop of `SimpleParser.Parse`
does: a docker block appends to the current step when it exists and has
neither expected output nor question, and otherwise starts a fresh step
with a generated id and the default timeout; an expect (question) block
sets the current step's expected (question) to the trimmed content and
closes the step. -/
def processBlock (st : ParseState) : BlockType × Str → ParseState
  | (.docker, content) =>
    let commands := parseCommands content
    match st.curOpen, st.steps.getLast? with
    | true, some cur =>
      if cur.expected = [] ∧ cur.question = [] then
        { st with steps :=
            st.steps.dropLast ++ [{ cur with commands := cur.commands ++ commands }] }
      else
        { steps := st.steps ++
            [{ id := generateStepID st.steps.length, commands := commands,
               timeout := fiveMinutes }]
          curOpen := true }
    | _, _ =>
      { steps := st.steps ++
          [{ id := generateStepID st.steps.length, commands := commands,
             timeout := fiveMinutes }]
        curOpen := true }
  | (.expect, content) =>
    match st.curOpen, st.steps.getLast? with
    | true, some cur =>
      { steps := st.steps.dropLast ++ [{ cur with expected := trimSpace content }]
        curOpen := false }
    | _, _ => st
  | (.question, content) =>
    match st.curOpen, st.steps.getLast? with
    | true, some cur =>
      { steps := st.steps.dropLast ++ [{ cur with question := trimSpace content }]
        curOpen := false }
    | _, _ => st

/-- The whole block loop of `SimpleParser.Parse`. -/
def processBlocks (blocks : List (BlockType × Str)) : ParseState :=
  blocks.foldl processBlock { steps := [], curOpen := false }

/-- The `Steps` field of the lesson `SimpleParser.Parse` returns for the
given markdown source (title and description extraction is independent of
the steps and not modelled). -/
def parseSteps (content : Str) : List LessonStep :=
  (processBlocks (findBlocks content)).steps

/-! ## Lesson stores (`api/store`) -/

/-- One entry of the `ListOptions.Filter` map, keyed as the
`MemoryLessonStore.ListLessons` filter switch reads it (a key the switch
does not handle never changes `include` and is omitted from the model). -/
inductive FilterCond where
  | id (v : Str)
  | title (v : Str)
  | category (v : Str)
  | difficulty (v : Str)
  | tag (v : Str)
  | tags (vs : List Str)
  | estimatedTime (v : Int)
deriving DecidableEq, Repr

/-- The record `store.ListOptions`.  The Go `Sort` and `Filter` maps are modelled as
association lists. -/
structure ListOptions where
  page : Int
  pageSize : Int
  sort : List (Str × Int)
  filter : List FilterCond
deriving DecidableEq, Repr

/-- The record `store.ListResult`. -/
structure ListResult where
  items : List Lesson
  totalItems : Int
  totalPages : Int
  page : Int
  pageSize : Int
deriving DecidableEq, Repr

/-- One case of the filter switch of `MemoryLessonStore.ListLessons`:
whether lesson `l` passes condition `cond`. -/
def matchesCond (l : Lesson) : FilterCond → Bool
  | .id v => l.id = v
  | .title v => strContains (toLowerStr l.title) (toLowerStr v)
  | .category v => l.category = v
  | .difficulty v => l.difficulty = v
  | .tag v => l.tags.any (· = v)
  | .tags vs => vs.all (fun requiredTag => l.tags.any (· = requiredTag))
  | .estimatedTime v => !(l.estimatedTime > v)

/-- The `include` accumulator of the filter loop: a lesson is kept iff
every filter entry matches. -/
def includeLesson (l : Lesson) (filter : List FilterCond) : Bool :=
  filter.all (matchesCond l)

/-- The filtering stage of `MemoryLessonStore.ListLessons` (the
`len(opts.Filter) > 0` branch keeps the whole list untouched when the
filter map is empty). -/
def filterLessons (filter : List FilterCond) (allLessons : List Lesson) :
    List Lesson :=
  if filter.length > 0 then allLessons.filter (includeLesson · filter)
  else allLessons

/-- The comparator `MemoryLessonStore.ListLessons` hands to `sort.Slice`:
the first sort entry keyed `createdAt` or `title` decides; with no such
entry the comparator returns `false`. -/
def memSortLess (sortSpec : List (Str × Int)) (a b : Lesson) : Bool :=
  match sortSpec.find? (fun kv =>
      kv.1 = "createdAt".toList ∨ kv.1 = "title".toList) with
  | some (k, v) =>
    if k = "createdAt".toList then
      if v = 1 then a.createdAt < b.createdAt else b.createdAt < a.createdAt
    else
      if v = 1 then a.title < b.title else b.title < a.title
  | none => false

/-- The sorting stage of `MemoryLessonStore.ListLessons` (`sort.Slice` is
modelled as a merge sort under the same comparator; it runs only when the
sort map is non-empty). -/
def memSortLessons (sortSpec : List (Str × Int)) (ls : List Lesson) :
    List Lesson :=
  if sortSpec.length > 0 then ls.mergeSort (memSortLess sortSpec) else ls

/-- Go slice indexing `l[start:end]`, with the runtime panic on indices
outside `0 ≤ start ≤ end ≤ len(l)` made explicit. -/
def goSlice (l : List Lesson) (start end_ : Int) : Option (List Lesson) :=
  if 0 ≤ start ∧ start ≤ end_ ∧ end_ ≤ l.length then
    some ((l.drop start.toNat).take (end_ - start).toNat)
  else none

/-- The pagination tail of `MemoryLessonStore.ListLessons`, applied to the
filtered-and-sorted list: compute `totalPages` by unguarded integer
division, clamp the slice bounds, and slice.  `none` is the runtime panic
(division by zero, or a negative slice index). -/
def memPaginate (sorted : List Lesson) (opts : ListOptions) :
    Option ListResult := do
  let totalItems : Int := sorted.length
  let q ← goDiv totalItems opts.pageSize
  let r ← goMod totalItems opts.pageSize
  let totalPages := if r > 0 then q + 1 else q
  let start := (opts.page - 1) * opts.pageSize
  let end_ := start + opts.pageSize
  let (start, end_) :=
    if start ≥ totalItems then ((0 : Int), (0 : Int)) else (start, end_)
  let end_ := if end_ > totalItems then totalItems else end_
  let items ← if start < end_ then goSlice sorted start end_ else some []
  pure { items := items, totalItems := totalItems, totalPages := totalPages,
         page := opts.page, pageSize := opts.pageSize }

/-- Listing `MemoryLessonStore.ListLessons` on the snapshot `allLessons` of the
store's map: filter, sort, paginate.  `none` is the runtime panic. -/
def memListLessons (allLessons : List Lesson) (opts : ListOptions) :
    Option ListResult :=
  memPaginate (memSortLessons opts.sort (filterLessons opts.filter allLessons))
    opts

/-- Listing `MongoLessonStore.ListLessons`, over the list `matching` of documents
the database returns for the filter, in the server's sort order (the
query itself runs in MongoDB and is abstracted as this input): normalise
the page and page size, then apply skip/limit and compute the totals. -/
def mongoListLessons (matching : List Lesson) (opts : ListOptions) :
    Option ListResult := do
  let page := if opts.page < 1 then 1 else opts.page
  let pageSize := if opts.pageSize < 1 then 20 else opts.pageSize
  let skip := (page - 1) * pageSize
  let totalItems : Int := matching.length
  let lessons := (matching.drop skip.toNat).take pageSize.toNat
  let q ← goDiv totalItems pageSize
  let r ← goMod totalItems pageSize
  let totalPages := if r > 0 then q + 1 else q
  pure { items := lessons, totalItems := totalItems, totalPages := totalPages,
         page := page, pageSize := pageSize }

/-! ### Versioning (`CreateLesson` / `UpdateLesson`) -/

/-- A lesson store's contents: lesson id → stored lesson.  This models both
the `MemoryLessonStore` map and the Mongo `lessons` collection keyed by its
unique `id` index. -/
def StoreMap := Str → Option Lesson

/-- Creation `MemoryLessonStore.CreateLesson`.  `freshId` stands for the generated
UUID and `now` for `time.Now()`.  Returns the updated store and the
(mutated) lesson that was inserted. -/
def memCreateLesson (store : StoreMap) (l : Lesson) (freshId : Str)
    (now : Int) : StoreMap × Lesson :=
  let l := { l with
    id := if l.id = [] then freshId else l.id
    createdAt := if l.createdAt = 0 then now else l.createdAt
    updatedAt := now
    version := 1
    versionHistory := []
    category := if l.category = [] then "Uncategorized".toList else l.category
    difficulty := if l.difficulty = [] then "Beginner".toList else l.difficulty
    estimatedTime := if l.estimatedTime ≤ 0 then 30 else l.estimatedTime }
  (fun id' => if id' = l.id then some l else store id', l)

/-- Update `MemoryLessonStore.UpdateLesson`: fail when the id is absent; otherwise
push `{current.version, current.updatedAt, changeSummary}` onto the
history, bump the version, stamp `updatedAt`, and store the payload. -/
def memUpdateLesson (store : StoreMap) (id : Str) (l : Lesson)
    (changeSummary : Str) (now : Int) : Option (StoreMap × Lesson) :=
  match store id with
  | none => none
  | some currentLesson =>
    let versionInfo : VersionInfo :=
      { version := currentLesson.version
        timestamp := currentLesson.updatedAt
        changeSummary := changeSummary }
    let l := { l with
      updatedAt := now
      version := currentLesson.version + 1
      versionHistory := currentLesson.versionHistory ++ [versionInfo] }
    some (fun id' => if id' = id then some l else store id', l)

/-- Creation `MongoLessonStore.CreateLesson`: always overwrites the id with a fresh
UUID, stamps both timestamps, sets version 1 and an empty history, and
inserts the document. -/
def mongoCreateLesson (store : StoreMap) (l : Lesson) (freshId : Str)
    (now : Int) : StoreMap × Lesson :=
  let l := { l with
    id := freshId
    createdAt := now
    updatedAt := now
    version := 1
    versionHistory := [] }
  (fun id' => if id' = l.id then some l else store id', l)

/-- Update `MongoLessonStore.UpdateLesson`: read the current document for its
version information (failing when it is absent), then `$set` the payload
with bumped version, stamped `updatedAt`, and the history extended by one
record. -/
def mongoUpdateLesson (store : StoreMap) (id : Str) (l : Lesson)
    (changeSummary : Str) (now : Int) : Option (StoreMap × Lesson) :=
  match store id with
  | none => none
  | some currentLesson =>
    let versionInfo : VersionInfo :=
      { version := currentLesson.version
        timestamp := currentLesson.updatedAt
        changeSummary := changeSummary }
    let l := { l with
      updatedAt := now
      version := currentLesson.version + 1
      versionHistory := currentLesson.versionHistory ++ [versionInfo] }
    some (fun id' => if id' = id then some l else store id', l)

/-- A sequence of `UpdateLesson` calls against lesson `id`, each with its
payload, change summary and instant; the sequence fails as soon as one
call fails. -/
def memApplyUpdates (store : StoreMap) (id : Str) :
    List (Lesson × Str × Int) → Option StoreMap
  | [] => some store
  | (l, summary, now) :: rest =>
    match memUpdateLesson store id l summary now with
    | none => none
    | some (store', _) => memApplyUpdates store' id rest

/-- The Mongo counterpart of `memApplyUpdates`. -/
def mongoApplyUpdates (store : StoreMap) (id : Str) :
    List (Lesson × Str × Int) → Option StoreMap
  | [] => some store
  | (l, summary, now) :: rest =>
    match mongoUpdateLesson store id l summary now with
    | none => none
    | some (store', _) => mongoApplyUpdates store' id rest

/-! ## DinD provisioner (`provisioner.DinD.InstanceNew`) -/

/-- The record `types.LessonContext`. -/
structure LessonContext where
  lessonID : Str
  stepIndex : Int
  completed : Bool
deriving DecidableEq, Repr

/-- The fields of `types.InstanceConfig` the modelled control flow reads. -/
structure InstanceConfig where
  imageName : Str := []
  hostname : Str := []
  lessonCtx : Option LessonContext := none
deriving DecidableEq, Repr

/-- The fields of `types.Instance` the modelled control flow reads. -/
structure Instance where
  name : Str := []
  hostname : Str := []
  sessionId : Str := []
  image : Str := []
deriving DecidableEq, Repr

/-- The image selected for a new instance by `DinD.InstanceNew`, following
its control flow over `conf.ImageName`: when a lesson context resolves to a
lesson, the lesson-derived image (primary container, else first container,
else step image, else lesson default) overwrites `conf.ImageName`; whatever
is left empty at the end falls back to the playground's default DinD
image.  `getLesson` stands for `storage.LessonGet` (`none` on error) and
`playgroundImage` for `playground.DefaultDinDInstanceImage`. -/
def selectImage (conf : InstanceConfig) (getLesson : Str → Option Lesson)
    (playgroundImage : Str) : Str :=
  let imageName :=
    match conf.lessonCtx with
    | none => conf.imageName
    | some ctx =>
      if ctx.lessonID = [] then conf.imageName
      else
        match getLesson ctx.lessonID with
        | none => conf.imageName
        | some lessonData =>
          if 0 ≤ ctx.stepIndex ∧ ctx.stepIndex < lessonData.steps.length then
            let currentStep := lessonData.steps.getD ctx.stepIndex.toNat {}
            if currentStep.containers.length > 0 then
              match currentStep.containers.find? (fun c =>
                  c.role = "primary".toList) with
              | some primaryContainer => primaryContainer.image
              | none =>
                match currentStep.containers with
                | firstContainer :: _ => firstContainer.image
                | [] => conf.imageName
            else if currentStep.image ≠ [] then currentStep.image
            else if lessonData.defaultImage ≠ [] then lessonData.defaultImage
            else conf.imageName
          else if lessonData.defaultImage ≠ [] then lessonData.defaultImage
          else conf.imageName
  if imageName = [] then playgroundImage else imageName

/-! ### Hostname assignment -/

/-- Little-endian decimal digits by repeated division, with explicit fuel
(structural recursion so that concrete values compute). -/
def decDigitsAux : Nat → Nat → List Nat
  | 0, _ => []
  | fuel + 1, n => if n = 0 then [] else n % 10 :: decDigitsAux fuel (n / 10)

/-- Little-endian decimal digits of `n`. -/
def decDigits (n : Nat) : List Nat :=
  decDigitsAux n n

/-- The character of a decimal digit. -/
def digitChar (d : Nat) : Char :=
  Char.ofNat (48 + d)

/-- Decimal rendering `fmt.Sprintf("%d", n)` for a natural number. -/
def natDecimal (n : Nat) : Str :=
  if n = 0 then ['0'] else (decDigits n).reverse.map digitChar

/-- Hostname rendering `fmt.Sprintf("node%d", i)`. -/
def nodeName (i : Nat) : Str :=
  "node".toList ++ natDecimal i

/-- Lookup `provisioner.checkHostnameExists` (the `sessionId` argument is unused,
as in the source). -/
def checkHostnameExists (sessionId : Str) (hostname : Str)
    (instances : List Instance) : Bool :=
  instances.any (fun inst => inst.hostname = hostname)

/-- The hostname search loop of `DinD.InstanceNew` (`for i := 1; ; i++`),
with explicit fuel: try `node i`, `node (i+1)`, …; return the first free
index, or `i + fuel` when the fuel runs out.  The model runs it with fuel
`instances.length + 1`, which always suffices (shown in the theorems
below). -/
def firstFreeNodeAux (sessionId : Str) (instances : List Instance) :
    Nat → Nat → Nat
  | 0, i => i
  | fuel + 1, i =>
    if checkHostnameExists sessionId (nodeName i) instances then
      firstFreeNodeAux sessionId instances fuel (i + 1)
    else i

/-- The index `N` chosen by the `nodeN` search loop of `DinD.InstanceNew`
(lines reached only when `conf.Hostname` is still empty after the
lesson-context block). -/
def firstFreeNode (sessionId : Str) (instances : List Instance) : Nat :=
  firstFreeNodeAux sessionId instances (instances.length + 1) 1

/-- The hostname produced by the `nodeN` search loop of
`DinD.InstanceNew`.  This is only the loop itself; the full assignment,
including the primary-container hostname that can preempt the loop, is
`instanceHostname`. -/
def assignHostname (sessionId : Str) (instances : List Instance) : Str :=
  nodeName (firstFreeNode sessionId instances)

/-- The value of `conf.Hostname` after the lesson-context block of
`DinD.InstanceNew`: when the context resolves to a step with containers
and the primary container (else the first) carries a non-empty hostname,
that hostname overwrites the configured one; otherwise the configured
hostname is kept.  `getLesson` stands for `storage.LessonGet` (`none` on
error). -/
def lessonHostname (conf : InstanceConfig)
    (getLesson : Str → Option Lesson) : Str :=
  match conf.lessonCtx with
  | none => conf.hostname
  | some ctx =>
    if ctx.lessonID = [] then conf.hostname
    else
      match getLesson ctx.lessonID with
      | none => conf.hostname
      | some lessonData =>
        if 0 ≤ ctx.stepIndex ∧ ctx.stepIndex < lessonData.steps.length then
          let currentStep := lessonData.steps.getD ctx.stepIndex.toNat {}
          if currentStep.containers.length > 0 then
            let primaryHostname :=
              match currentStep.containers.find? (fun c =>
                  c.role = "primary".toList) with
              | some primaryContainer => primaryContainer.hostname
              | none =>
                match currentStep.containers with
                | firstContainer :: _ => firstContainer.hostname
                | [] => []
            if primaryHostname ≠ [] then primaryHostname else conf.hostname
          else conf.hostname
        else conf.hostname

/-- The hostname `DinD.InstanceNew` gives the new instance: the configured
hostname as possibly overwritten by the lesson step's primary container,
and, only when that is still empty, the first free `nodeN` from the search
loop over the session's existing instances. -/
def instanceHostname (conf : InstanceConfig)
    (getLesson : Str → Option Lesson) (sessionId : Str)
    (instances : List Instance) : Str :=
  if lessonHostname conf getLesson = [] then
    assignHostname sessionId instances
  else lessonHostname conf getLesson

/-! ## Specification-side definitions

These definitions follow the wording of the specification (not the code);
the refinement theorems below compare them with the code models above. -/

/-- Ceiling division `⌈a / b⌉` for `0 ≤ a`, `0 < b`, as the specification's
`total_pages = ⌈total_items/page_size⌉`. -/
def specCeilDiv (a b : Int) : Int :=
  (a + b - 1) / b

/-- The deny-list of prefixes exactly as the specification enumerates it
("rejects a curated deny-list prefix (`rm -rf /`, `mkfs`, …)"). -/
def specDeniedPrefixes : List Str :=
  ["rm -rf /", "mkfs", "dd if=/dev/zero", ":(){ :|:& };:", "> /dev/sda",
   "chmod -R 777 /", "wget", "curl", "nc", "telnet", "ssh",
   "sudo", "su", "passwd", "shutdown", "reboot", "halt", "poweroff",
   "init 0", "init 6"].map String.toList

/-- The deny-list of substring patterns as the specification enumerates
it. -/
def specDeniedPatterns : List Str :=
  ["`", "$(", "eval", "exec", "source", "bash -c", "sh -c",
   "python -c", "perl -e", "ruby -e", "php -r", "nc -e",
   "curl | bash", "wget | bash", "> /dev/null 2>&1"].map String.toList

/-- The command-safety filter as the specification words it: rejects (after
trimming) empty commands, commands longer than 1000 bytes, commands
beginning with a `specDeniedPrefixes` entry, commands containing a
`specDeniedPatterns` entry, and commands containing a control character
other than tab, newline or carriage return. -/
def specRejects (cmd₀ : Str) : Bool :=
  let cmd := trimSpace cmd₀
  cmd = [] || utf8Len cmd > 1000 ||
  specDeniedPrefixes.any (fun p => hasPrefix cmd p) ||
  specDeniedPatterns.any (fun p => strContains cmd p) ||
  cmd.any (fun c =>
    c.toNat < 32 && !(c = '\t') && !(c = '\n') && !(c = '\r'))

/-- Predicate `specRejects` amended by the counterexample below: the code's prefix
deny-list additionally holds `rm -rf /*`, `rm -rf ~`, `rm -rf .` and
`rm -rf ..`. -/
def amendedRejects (cmd₀ : Str) : Bool :=
  let cmd := trimSpace cmd₀
  cmd = [] || utf8Len cmd > 1000 ||
  (specDeniedPrefixes ++
    (["rm -rf /*", "rm -rf ~", "rm -rf .", "rm -rf .."].map String.toList)).any
    (fun p => hasPrefix cmd p) ||
  specDeniedPatterns.any (fun p => strContains cmd p) ||
  cmd.any (fun c =>
    c.toNat < 32 && !(c = '\t') && !(c = '\n') && !(c = '\r'))

/-- Well-formedness of one lesson step as the specification states it:
non-empty id, content present and within bounds, no expected output without
commands, at most 10 commands each within 500 bytes and accepted by the
command-safety filter, and a timeout within one hour. -/
def stepValidSpec (s : LessonStep) : Prop :=
  s.id ≠ [] ∧ s.content ≠ [] ∧ utf8Len s.content ≤ 5000 ∧
  ¬(s.expected ≠ [] ∧ s.commands = []) ∧
  s.commands.length ≤ 10 ∧
  (∀ c ∈ s.commands, utf8Len c ≤ 500 ∧ isValidCommand c = true) ∧
  0 ≤ s.timeout ∧ s.timeout ≤ oneHour

/-- Well-formedness of a lesson as the specification states it: title and
description present and within bounds, between 1 and 50 steps,
pairwise-distinct step ids, and every step well-formed. -/
def lessonValidSpec (l : Lesson) : Prop :=
  l.title ≠ [] ∧ utf8Len l.title ≤ 100 ∧
  l.description ≠ [] ∧ utf8Len l.description ≤ 500 ∧
  1 ≤ l.steps.length ∧ l.steps.length ≤ 50 ∧
  (l.steps.map (·.id)).Nodup ∧
  (∀ s ∈ l.steps, stepValidSpec s)

/-- Decimal value of a little-endian digit list (used to invert
`decDigits`). -/
def fromDecDigits : List Nat → Nat
  | [] => 0
  | d :: ds => d + 10 * fromDecDigits ds

/-! ## Concrete scenario inputs -/

/-- The markdown source of scenario S1. -/
def s1md : Str :=
  ("# Basics\nLearn echo.\n```docker\necho hi\n```\n```expect\nhi\n```\n").toList

/-- The single step scenario S1 expects. -/
def s1step : LessonStep :=
  { id := "step-a".toList, commands := [("echo hi").toList],
    expected := "hi".toList, timeout := fiveMinutes }

/-- The step of scenario S6, with expected output `"Hello, World!\n"`. -/
def s6lesson : Lesson :=
  { title := "T".toList,
    steps := [{ id := "s1".toList, expected := ("Hello, World!\n").toList }] }

/-- An existing instance with the given hostname (scenario S5). -/
def instWithHostname (h : Str) : Instance :=
  { hostname := h }

/-- Existing instances `node1` and `node3` of scenario S5. -/
def s5instances : List Instance :=
  [instWithHostname ("node1".toList), instWithHostname ("node3".toList)]

/-- The 25 stored lessons for scenario S3. -/
def s3lessons : List Lesson :=
  (List.range 25).map (fun i => { title := "T".toList ++ natDecimal i })

/-- The primary container of `c2lesson`, with image `contimg`. -/
def c2container : ContainerConfig :=
  { role := "primary".toList, image := "contimg".toList }

/-- A lesson whose only step carries a primary container with image
`contimg` (used to refute the claimed image-selection precedence). -/
def c2lesson : Lesson :=
  { steps := [{ id := "s".toList, containers := [c2container] }] }

/-- A lesson-store lookup holding only `c2lesson` under id `L`. -/
def c2get : Str → Option Lesson :=
  fun id => if id = "L".toList then some c2lesson else none

/-- An instance config with an explicitly set image and a lesson context
pointing at `c2lesson`'s step 0. -/
def c2conf : InstanceConfig :=
  { imageName := "explicit".toList,
    lessonCtx := some { lessonID := "L".toList, stepIndex := 0, completed := false } }

/-- A primary container that carries its own hostname `web`. -/
def c4container : ContainerConfig :=
  { role := "primary".toList, hostname := "web".toList }

/-- A lesson whose only step holds `c4container` (used to refute the
claimed hostname assignment). -/
def c4lesson : Lesson :=
  { steps := [{ id := "s".toList, containers := [c4container] }] }

/-- A lesson-store lookup holding only `c4lesson` under id `H`. -/
def c4get : Str → Option Lesson :=
  fun id => if id = "H".toList then some c4lesson else none

/-- An instance config with no hostname set whose lesson context points at
`c4lesson`'s step 0. -/
def c4conf : InstanceConfig :=
  { lessonCtx := some { lessonID := "H".toList, stepIndex := 0, completed := false } }

/-- A session that already owns an instance whose hostname is `web`. -/
def c4instances : List Instance :=
  [{ hostname := "web".toList }]

/-- A freshly opened parser step (as after one docker block). -/
def w9step : LessonStep :=
  { id := generateStepID 0, commands := [("echo hi").toList],
    timeout := fiveMinutes }

/-- A parse state whose current step is `w9step`. -/
def w9open : ParseState :=
  { steps := [w9step], curOpen := true }

/-- A parse state holding `w9step` with no current step. -/
def w9closed : ParseState :=
  { steps := [w9step], curOpen := false }

/-- The single step of scenario S2's valid lesson. -/
def s2step : LessonStep :=
  { id := "a".toList, content := "C".toList,
    commands := [("echo hi").toList], timeout := fiveMinutes }

/-- Scenario S2's valid lesson: title `T`, one step. -/
def s2lesson : Lesson :=
  { title := "T".toList, description := "D".toList, steps := [s2step] }

/-- The empty lesson store. -/
def emptyStore : StoreMap := fun _ => none

/-- The in-memory store after creating scenario S2's lesson under the fresh
id `u` at instant 10. -/
def w3store : StoreMap :=
  (memCreateLesson emptyStore s2lesson ("u".toList) 10).1

/-- Scenario S4's breaker `{threshold 2, reset 100, halfopen_success 1}`,
fresh at instant 0. -/
def s4breaker : CircuitBreaker :=
  CircuitBreaker.new 2 100 1 0

/-- State of `s4breaker` after its two consecutive failures (recorded at instant
5). -/
def s4open : CircuitBreaker :=
  s4breaker.recordFailures 2 5

/-- State of `s4open` once a request has been admitted at instant 160 (past the
reset timeout). -/
def s4halfOpen : CircuitBreaker :=
  (s4open.allowRequest 160).2

/-! # Theorems

First the shared lemmas, then one theorem per specification claim (with a
witness instantiation where the theorem carries hypotheses). -/

/-! ## Circuit-breaker lemmas -/

namespace CircuitBreaker

theorem recordFailures_succ_last (now : Int) :
    ∀ (n : Nat) (cb : CircuitBreaker),
      cb.recordFailures (n + 1) now =
        (cb.recordFailures n now).recordResult true now := by
  intro n
  induction n with
  | zero => intro cb; rfl
  | succ m ih =>
    intro cb
    show (cb.recordResult true now).recordFailures (m + 1) now = _
    rw [ih (cb.recordResult true now)]
    rfl

theorem recordSuccesses_succ_last (now : Int) :
    ∀ (n : Nat) (cb : CircuitBreaker),
      cb.recordSuccesses (n + 1) now =
        (cb.recordSuccesses n now).recordResult false now := by
  intro n
  induction n with
  | zero => intro cb; rfl
  | succ m ih =>
    intro cb
    show (cb.recordResult false now).recordSuccesses (m + 1) now = _
    rw [ih (cb.recordResult false now)]
    rfl

theorem recordResult_fail_closed {cb : CircuitBreaker} (now : Int)
    (h : cb.state = .closed)
    (hlt : cb.failureCount + 1 < cb.failureThreshold) :
    (cb.recordResult true now).state = .closed ∧
    (cb.recordResult true now).failureCount = cb.failureCount + 1 ∧
    (cb.recordResult true now).failureThreshold = cb.failureThreshold := by
  have hge : ¬ cb.failureThreshold ≤ cb.failureCount + 1 := by omega
  simp [recordResult, h, hge]

theorem recordFailures_closed {cb : CircuitBreaker} (now : Int) :
    ∀ (n : Nat), cb.state = .closed →
      cb.failureCount + n < cb.failureThreshold →
      (cb.recordFailures n now).state = .closed ∧
      (cb.recordFailures n now).failureCount = cb.failureCount + n ∧
      (cb.recordFailures n now).failureThreshold = cb.failureThreshold := by
  intro n
  induction n generalizing cb with
  | zero => intro h _; exact ⟨h, by simp [recordFailures], rfl⟩
  | succ m ih =>
    intro h hlt
    rw [recordFailures_succ_last]
    have hm : cb.failureCount + (m : Int) < cb.failureThreshold := by
      push_cast at hlt ⊢; omega
    obtain ⟨h1, h2, h3⟩ := ih h hm
    have hlt' : (cb.recordFailures m now).failureCount + 1 <
        (cb.recordFailures m now).failureThreshold := by
      rw [h2, h3]; push_cast at hlt ⊢; omega
    obtain ⟨g1, g2, g3⟩ := recordResult_fail_closed now h1 hlt'
    refine ⟨g1, ?_, by rw [g3, h3]⟩
    rw [g2, h2]; push_cast; ring

theorem recordResult_fail_trip {cb : CircuitBreaker} (now : Int)
    (h : cb.state = .closed)
    (hge : cb.failureCount + 1 ≥ cb.failureThreshold) :
    (cb.recordResult true now).state = .open_ ∧
    (cb.recordResult true now).lastStateChange = now := by
  have hge' : cb.failureThreshold ≤ cb.failureCount + 1 := hge
  simp [recordResult, setState, h, hge']

theorem recordResult_success_halfOpen {cb : CircuitBreaker} (now : Int)
    (h : cb.state = .halfOpen)
    (hlt : cb.successCount + 1 < cb.halfOpenSuccessThreshold) :
    (cb.recordResult false now).state = .halfOpen ∧
    (cb.recordResult false now).successCount = cb.successCount + 1 ∧
    (cb.recordResult false now).halfOpenSuccessThreshold =
      cb.halfOpenSuccessThreshold := by
  have hge : ¬ cb.halfOpenSuccessThreshold ≤ cb.successCount + 1 := by omega
  simp [recordResult, h, hge]

theorem recordSuccesses_halfOpen {cb : CircuitBreaker} (now : Int) :
    ∀ (n : Nat), cb.state = .halfOpen →
      cb.successCount + n < cb.halfOpenSuccessThreshold →
      (cb.recordSuccesses n now).state = .halfOpen ∧
      (cb.recordSuccesses n now).successCount = cb.successCount + n ∧
      (cb.recordSuccesses n now).halfOpenSuccessThreshold =
        cb.halfOpenSuccessThreshold := by
  intro n
  induction n generalizing cb with
  | zero => intro h _; exact ⟨h, by simp [recordSuccesses], rfl⟩
  | succ m ih =>
    intro h hlt
    rw [recordSuccesses_succ_last]
    have hm : cb.successCount + (m : Int) < cb.halfOpenSuccessThreshold := by
      push_cast at hlt ⊢; omega
    obtain ⟨h1, h2, h3⟩ := ih h hm
    have hlt' : (cb.recordSuccesses m now).successCount + 1 <
        (cb.recordSuccesses m now).halfOpenSuccessThreshold := by
      rw [h2, h3]; push_cast at hlt ⊢; omega
    obtain ⟨g1, g2, g3⟩ := recordResult_success_halfOpen now h1 hlt'
    refine ⟨g1, ?_, by rw [g3, h3]⟩
    rw [g2, h2]; push_cast; ring

theorem recordResult_success_close {cb : CircuitBreaker} (now : Int)
    (h : cb.state = .halfOpen)
    (hge : cb.successCount + 1 ≥ cb.halfOpenSuccessThreshold) :
    (cb.recordResult false now).state = .closed := by
  have hge' : cb.halfOpenSuccessThreshold ≤ cb.successCount + 1 := hge
  simp [recordResult, setState, h, hge']

end CircuitBreaker

/-- C1: with failure threshold `k`, reset timeout `r` and half-open success
threshold `h`, starting Closed: `k` consecutive recorded failures move the
state from Closed to Open (and fewer than `k` leave it Closed); while Open
with at most `r` elapsed since the last state change, `Execute` returns
`CircuitOpen` without invoking the operation; a request arriving after more
than `r` transitions the breaker to HalfOpen and is admitted; in HalfOpen a
single failure returns the state to Open, and `h` successes counted since
entering HalfOpen close it (fewer leave it HalfOpen). -/
theorem claim_C1 (cb : CircuitBreaker) (now : Int) (e : Bool) :
    (cb.state = .closed → cb.failureCount = 0 → 0 < cb.failureThreshold →
      (cb.recordFailures cb.failureThreshold.toNat now).state = .open_ ∧
      ∀ j : Nat, (j : Int) < cb.failureThreshold →
        (cb.recordFailures j now).state = .closed) ∧
    (cb.state = .open_ → now - cb.lastStateChange ≤ cb.resetTimeout →
      cb.execute e now = (.circuitOpen, cb)) ∧
    (cb.state = .open_ → now - cb.lastStateChange > cb.resetTimeout →
      (cb.allowRequest now).1 = true ∧
      (cb.allowRequest now).2.state = .halfOpen ∧
      (cb.allowRequest now).2.successCount = 0 ∧
      (cb.allowRequest now).2.lastStateChange = now) ∧
    (cb.state = .halfOpen → (cb.recordResult true now).state = .open_) ∧
    (cb.state = .halfOpen → cb.successCount = 0 →
      0 < cb.halfOpenSuccessThreshold →
      (cb.recordSuccesses cb.halfOpenSuccessThreshold.toNat now).state =
        .closed ∧
      ∀ j : Nat, (j : Int) < cb.halfOpenSuccessThreshold →
        (cb.recordSuccesses j now).state = .halfOpen) := by
  refine ⟨?_, ?_, ?_, ?_, ?_⟩
  · intro h1 h2 h3
    have hstay : ∀ j : Nat, (j : Int) < cb.failureThreshold →
        (cb.recordFailures j now).state = .closed ∧
        (cb.recordFailures j now).failureCount = (j : Int) ∧
        (cb.recordFailures j now).failureThreshold = cb.failureThreshold := by
      intro j hj
      have := CircuitBreaker.recordFailures_closed now j h1 (by omega)
      rw [h2] at this
      simpa using this
    refine ⟨?_, fun j hj => (hstay j hj).1⟩
    obtain ⟨m, hm⟩ : ∃ m, cb.failureThreshold.toNat = m + 1 :=
      ⟨cb.failureThreshold.toNat - 1, by omega⟩
    rw [hm, CircuitBreaker.recordFailures_succ_last]
    have hmlt : ((m : Int)) < cb.failureThreshold := by omega
    obtain ⟨g1, g2, g3⟩ := hstay m hmlt
    exact (CircuitBreaker.recordResult_fail_trip now g1 (by rw [g2, g3]; omega)).1
  · intro h1 h2
    have hng : ¬ cb.resetTimeout < now - cb.lastStateChange := by omega
    simp [CircuitBreaker.execute, CircuitBreaker.allowRequest, h1, hng]
  · intro h1 h2
    have hg : cb.resetTimeout < now - cb.lastStateChange := by omega
    simp [CircuitBreaker.allowRequest, CircuitBreaker.setState, h1, hg]
  · intro h1
    simp [CircuitBreaker.recordResult, CircuitBreaker.setState, h1]
  · intro h1 h2 h3
    have hstay : ∀ j : Nat, (j : Int) < cb.halfOpenSuccessThreshold →
        (cb.recordSuccesses j now).state = .halfOpen ∧
        (cb.recordSuccesses j now).successCount = (j : Int) ∧
        (cb.recordSuccesses j now).halfOpenSuccessThreshold =
          cb.halfOpenSuccessThreshold := by
      intro j hj
      have := CircuitBreaker.recordSuccesses_halfOpen now j h1 (by omega)
      rw [h2] at this
      simpa using this
    refine ⟨?_, fun j hj => (hstay j hj).1⟩
    obtain ⟨m, hm⟩ : ∃ m, cb.halfOpenSuccessThreshold.toNat = m + 1 :=
      ⟨cb.halfOpenSuccessThreshold.toNat - 1, by omega⟩
    rw [hm, CircuitBreaker.recordSuccesses_succ_last]
    have hmlt : ((m : Int)) < cb.halfOpenSuccessThreshold := by omega
    obtain ⟨g1, g2, g3⟩ := hstay m hmlt
    exact CircuitBreaker.recordResult_success_close now g1 (by rw [g2, g3]; omega)

/-- Witness for C1 on scenario S4's concrete breaker. -/
theorem claim_C1_witness :
    (s4breaker.recordFailures s4breaker.failureThreshold.toNat 5).state =
      .open_ ∧
    s4open.execute false 50 = (.circuitOpen, s4open) ∧
    (s4open.allowRequest 160).1 = true ∧
    (s4open.allowRequest 160).2.state = .halfOpen ∧
    (s4halfOpen.recordResult true 200).state = .open_ ∧
    (s4halfOpen.recordSuccesses s4halfOpen.halfOpenSuccessThreshold.toNat
      160).state = .closed :=
  ⟨((claim_C1 s4breaker 5 false).1 (by decide) (by decide) (by decide)).1,
   (claim_C1 s4open 50 false).2.1 (by decide) (by decide),
   ((claim_C1 s4open 160 false).2.2.1 (by decide) (by decide)).1,
   ((claim_C1 s4open 160 false).2.2.1 (by decide) (by decide)).2.1,
   (claim_C1 s4halfOpen 200 false).2.2.2.1 (by decide),
   ((claim_C1 s4halfOpen 160 false).2.2.2.2 (by decide) (by decide)
     (by decide)).1⟩

/-! ## C6 — step-output validation -/

/-- C6: for a step index in range, the endpoint reports valid iff the step's
expected output is empty or the trimmed observed output equals the trimmed
expected output; on a mismatch the response carries both normalized forms;
and on scenario S6's step (expected `"Hello, World!\n"`) the output
`"Hello, World!"` is valid while `"Hello"` is invalid with expected
`"Hello, World!"` and received `"Hello"`. -/
theorem claim_C6 :
    (∀ (l : Lesson) (step : Int) (out : Str),
      0 ≤ step → step < l.steps.length →
      ((validateStep l step out = .noExpected ∨
          validateStep l step out = .valid) ↔
        ((l.steps.getD step.toNat {}).expected = [] ∨
          trimSpace out = trimSpace (l.steps.getD step.toNat {}).expected))) ∧
    (∀ (l : Lesson) (step : Int) (out : Str),
      0 ≤ step → step < l.steps.length →
      (l.steps.getD step.toNat {}).expected ≠ [] →
      trimSpace out ≠ trimSpace (l.steps.getD step.toNat {}).expected →
      validateStep l step out =
        .invalid (trimSpace (l.steps.getD step.toNat {}).expected)
          (trimSpace out)) ∧
    validateStep s6lesson 0 ("Hello, World!".toList) = .valid ∧
    validateStep s6lesson 0 ("Hello".toList) =
      .invalid ("Hello, World!".toList) ("Hello".toList) := by
  refine ⟨?_, ?_, by decide, by decide⟩
  · intro l step out h0 hlen
    unfold validateStep
    rw [if_neg (by omega)]
    generalize l.steps.getD step.toNat {} = cur
    by_cases he : cur.expected = []
    · simp [he]
    · by_cases heq : trimSpace out = trimSpace cur.expected
      · simp [he, heq]
      · simp [he, heq]
  · intro l step out h0 hlen he heq
    unfold validateStep
    rw [if_neg (by omega)]
    revert he heq
    generalize l.steps.getD step.toNat {} = cur
    intro he heq
    simp [he, heq]

/-- Witness for C6 on scenario S6's concrete step and outputs. -/
theorem claim_C6_witness :
    (validateStep s6lesson 0 ("Hello, World!".toList) = .noExpected ∨
      validateStep s6lesson 0 ("Hello, World!".toList) = .valid) ∧
    validateStep s6lesson 0 ("Hello".toList) =
      .invalid (trimSpace (s6lesson.steps.getD 0 {}).expected)
        (trimSpace ("Hello".toList)) :=
  ⟨(claim_C6.1 s6lesson 0 _ (by decide) (by decide)).mpr (Or.inr (by decide)),
   claim_C6.2.1 s6lesson 0 _ (by decide) (by decide) (by decide) (by decide)⟩

/-! ## Lesson-validation lemmas (shared by C7 and C8) -/

theorem anyPrefix_perm (cmd : Str) :
    dangerousCommands.any (fun d => hasPrefix cmd d) =
    (specDeniedPrefixes ++
      (["rm -rf /*", "rm -rf ~", "rm -rf .", "rm -rf .."].map
        String.toList)).any (fun d => hasPrefix cmd d) := by
  rw [Bool.eq_iff_iff]
  simp only [List.any_eq_true]
  constructor
  · rintro ⟨x, hx, hpx⟩
    refine ⟨x, ?_, hpx⟩
    fin_cases hx <;> decide
  · rintro ⟨x, hx, hpx⟩
    refine ⟨x, ?_, hpx⟩
    fin_cases hx <;> decide

theorem dangerousPatterns_eq_spec : dangerousPatterns = specDeniedPatterns := by
  decide

theorem isValidCommand_false_iff (cmd₀ : Str) :
    isValidCommand cmd₀ = false ↔ amendedRejects cmd₀ = true := by
  simp only [isValidCommand, amendedRejects]
  rw [← anyPrefix_perm (trimSpace cmd₀), dangerousPatterns_eq_spec]
  split_ifs with h1 h2 h3 h4 h5 <;> simp_all
  exact h5

theorem listContains_iff (l : List Str) (x : Str) :
    l.contains x = true ↔ x ∈ l := by
  simp [List.contains_iff_exists_mem_beq]

theorem validateCommands_none_iff :
    ∀ (cmds : List Str) (i j : Nat),
      validateCommands i j cmds = none ↔
        ∀ c ∈ cmds, utf8Len c ≤ 500 ∧ isValidCommand c = true := by
  intro cmds
  induction cmds with
  | nil => intro i j; simp [validateCommands]
  | cons c rest ih =>
    intro i j
    unfold validateCommands
    by_cases h1 : utf8Len c > 500
    · rw [if_pos h1]
      refine iff_of_false (by simp) ?_
      intro h
      have := (h c (List.mem_cons_self c rest)).1
      omega
    · rw [if_neg h1]
      by_cases h2 : isValidCommand c = true
      · rw [if_neg (by simp [h2]), ih i (j + 1)]
        constructor
        · intro h c' hc'
          rcases List.mem_cons.mp hc' with h' | h'
          · subst h'; exact ⟨by omega, h2⟩
          · exact h c' h'
        · intro h c' hc'
          exact h c' (List.mem_cons_of_mem _ hc')
      · rw [if_pos (by simp [h2])]
        refine iff_of_false (by simp) ?_
        intro h
        exact absurd (h c (List.mem_cons_self c rest)).2 h2

theorem validateSteps_none_iff :
    ∀ (steps : List LessonStep) (seen : List Str) (i : Nat),
      validateSteps seen i steps = none ↔
        ((steps.map (·.id)).Nodup ∧ (∀ s ∈ steps, s.id ∉ seen) ∧
          ∀ s ∈ steps, stepValidSpec s) := by
  intro steps
  induction steps with
  | nil => intro seen i; simp [validateSteps]
  | cons step rest ih =>
    intro seen i
    have hmem : step ∈ step :: rest := List.mem_cons_self step rest
    unfold validateSteps
    by_cases h1 : step.id = []
    · rw [if_pos h1]
      refine iff_of_false (by simp) ?_
      rintro ⟨-, -, g3⟩
      exact absurd h1 (g3 step hmem).1
    · rw [if_neg h1]
      by_cases h2 : step.id ∈ seen
      · rw [if_pos ((listContains_iff seen step.id).mpr h2)]
        refine iff_of_false (by simp) ?_
        rintro ⟨-, g2, -⟩
        exact absurd h2 (g2 step hmem)
      · rw [if_neg (by rw [listContains_iff seen step.id]; exact h2)]
        by_cases h3 : step.content = []
        · rw [if_pos h3]
          refine iff_of_false (by simp) ?_
          rintro ⟨-, -, g3⟩
          exact absurd h3 (g3 step hmem).2.1
        · rw [if_neg h3]
          by_cases h4 : utf8Len step.content > 5000
          · rw [if_pos h4]
            refine iff_of_false (by simp) ?_
            rintro ⟨-, -, g3⟩
            have := (g3 step hmem).2.2.1
            omega
          · rw [if_neg h4]
            by_cases h5 : step.expected ≠ [] ∧ step.commands = []
            · rw [if_pos h5]
              refine iff_of_false (by simp) ?_
              rintro ⟨-, -, g3⟩
              exact absurd h5 (g3 step hmem).2.2.2.1
            · rw [if_neg h5]
              by_cases h6 : step.commands.length > 10
              · rw [if_pos h6]
                refine iff_of_false (by simp) ?_
                rintro ⟨-, -, g3⟩
                have := (g3 step hmem).2.2.2.2.1
                omega
              · rw [if_neg h6]
                by_cases h7 : validateCommands i 0 step.commands = none
                · rw [h7]
                  by_cases h8 : step.timeout < 0 ∨ step.timeout > oneHour
                  · rw [if_pos h8]
                    refine iff_of_false (by simp) ?_
                    rintro ⟨-, -, g3⟩
                    have ha := (g3 step hmem).2.2.2.2.2.2.1
                    have hb := (g3 step hmem).2.2.2.2.2.2.2
                    omega
                  · rw [if_neg h8, ih (step.id :: seen) (i + 1)]
                    have hcmds := (validateCommands_none_iff
                      step.commands i 0).mp h7
                    constructor
                    · rintro ⟨g1, g2, g3⟩
                      refine ⟨?_, ?_, ?_⟩
                      · simp only [List.map_cons, List.nodup_cons]
                        refine ⟨?_, g1⟩
                        simp only [List.mem_map]
                        rintro ⟨s, hs, hid⟩
                        exact absurd (hid ▸ List.mem_cons_self step.id seen)
                          (g2 s hs)
                      · intro s hs
                        rcases List.mem_cons.mp hs with h | h
                        · subst h; exact h2
                        · intro hmem'
                          exact absurd (List.mem_cons_of_mem _ hmem') (g2 s h)
                      · intro s hs
                        rcases List.mem_cons.mp hs with h | h
                        · subst h
                          exact ⟨h1, h3, by omega, h5, by omega, hcmds,
                            by omega, by omega⟩
                        · exact g3 s h
                    · rintro ⟨g1, g2, g3⟩
                      simp only [List.map_cons, List.nodup_cons] at g1
                      refine ⟨g1.2, ?_,
                        fun s hs => g3 s (List.mem_cons_of_mem _ hs)⟩
                      intro s hs hmem'
                      rcases List.mem_cons.mp hmem' with h | h
                      · exact absurd (h ▸ List.mem_map_of_mem (·.id) hs) g1.1
                      · exact absurd h (g2 s (List.mem_cons_of_mem _ hs))
                · obtain ⟨e, he⟩ := Option.ne_none_iff_exists'.mp h7
                  rw [he]
                  refine iff_of_false (by simp) ?_
                  rintro ⟨-, -, g3⟩
                  have := (g3 step hmem).2.2.2.2.2.1
                  exact absurd ((validateCommands_none_iff
                    step.commands i 0).mpr this) h7

theorem validateLesson_none_iff (l : Lesson) :
    validateLesson l = none ↔ lessonValidSpec l := by
  unfold validateLesson lessonValidSpec
  by_cases h1 : l.title = []
  · rw [if_pos h1]
    refine iff_of_false (by simp) ?_
    rintro ⟨g, -⟩
    exact absurd h1 g
  · rw [if_neg h1]
    by_cases h2 : utf8Len l.title > 100
    · rw [if_pos h2]
      refine iff_of_false (by simp) ?_
      rintro ⟨-, g, -⟩
      omega
    · rw [if_neg h2]
      by_cases h3 : l.description = []
      · rw [if_pos h3]
        refine iff_of_false (by simp) ?_
        rintro ⟨-, -, g, -⟩
        exact absurd h3 g
      · rw [if_neg h3]
        by_cases h4 : utf8Len l.description > 500
        · rw [if_pos h4]
          refine iff_of_false (by simp) ?_
          rintro ⟨-, -, -, g, -⟩
          omega
        · rw [if_neg h4]
          by_cases h5 : l.steps.length = 0
          · rw [if_pos h5]
            refine iff_of_false (by simp) ?_
            rintro ⟨-, -, -, -, g, -⟩
            omega
          · rw [if_neg h5]
            by_cases h6 : l.steps.length > 50
            · rw [if_pos h6]
              refine iff_of_false (by simp) ?_
              rintro ⟨-, -, -, -, -, g, -⟩
              omega
            · rw [if_neg h6, validateSteps_none_iff]
              constructor
              · rintro ⟨g1, -, g3⟩
                exact ⟨h1, by omega, h3, by omega, by omega, by omega, g1, g3⟩
              · rintro ⟨-, -, -, -, -, -, g7, g8⟩
                exact ⟨g7, fun s _ => List.not_mem_nil s.id, g8⟩

/-- C7 counterexample: the command `rm -rf ~` is rejected by the code's
filter but matches none of the rejection conditions the claim enumerates
(its prefix deny-list omits `rm -rf ~`, `rm -rf .`, `rm -rf ..` and
`rm -rf /*`), so the claimed "rejects iff" fails at this input. -/
theorem claim_C7_counterexample :
    isValidCommand ("rm -rf ~".toList) = false ∧
    specRejects ("rm -rf ~".toList) = false := by
  decide

/-- C7 (amended): with the prefix deny-list extended by `rm -rf /*`,
`rm -rf ~`, `rm -rf .` and `rm -rf ..`, the command-safety filter rejects a
command iff one of the enumerated conditions holds; and every lesson
accepted at validation contains no command the filter rejects. -/
theorem claim_C7 :
    (∀ cmd : Str, isValidCommand cmd = false ↔ amendedRejects cmd = true) ∧
    (∀ l : Lesson, validateLesson l = none →
      ∀ s ∈ l.steps, ∀ c ∈ s.commands, isValidCommand c = true) := by
  refine ⟨isValidCommand_false_iff, ?_⟩
  intro l hl s hs c hc
  have hstep := ((validateLesson_none_iff l).mp hl).2.2.2.2.2.2.2 s hs
  exact (hstep.2.2.2.2.2.1 c hc).2

/-- Witness for C7: the filter's verdict on `echo hi` agrees with the
amended condition list, and scenario S2's accepted lesson contains only
commands the filter accepts. -/
theorem claim_C7_witness :
    (isValidCommand ("echo hi".toList) = false ↔
      amendedRejects ("echo hi".toList) = true) ∧
    isValidCommand ("echo hi".toList) = true :=
  ⟨claim_C7.1 _,
   claim_C7.2 s2lesson (by decide) s2step (by decide) _ (by decide)⟩

/-- C8: `validateLesson` (run on create and update) accepts a lesson iff
none of the specification's well-formedness constraints is violated:
title and description present and within bounds, 1–50 steps, non-empty
pairwise-distinct step ids, step content present and within bounds, at
most 10 commands per step each within 500 bytes and accepted by the
command-safety filter, no expected output without commands, and step
timeouts within one hour. -/
theorem claim_C8 :
    ∀ l : Lesson, validateLesson l = none ↔ lessonValidSpec l :=
  validateLesson_none_iff

/-! ## C9 — markdown parser -/

/-- C9: the block loop of `SimpleParser.Parse` processes docker, expect and
question blocks in source order: a docker block appends its non-empty
trimmed lines to the current step when that step exists and has neither
expected output nor question, and otherwise starts a new step with
generated id `step-a`, `step-b`, … and a 5-minute default timeout; an
expect (question) block sets the current step's expected (question) to the
trimmed content and closes the step; and scenario S1's source yields
exactly one step with commands `["echo hi"]`, expected `"hi"` and a
5-minute timeout. -/
theorem claim_C9 :
    (∀ (st : ParseState) (content : Str) (cur : LessonStep),
      st.curOpen = true → st.steps.getLast? = some cur →
      cur.expected = [] → cur.question = [] →
      processBlock st (.docker, content) =
        { st with steps := st.steps.dropLast ++
            [{ cur with commands := cur.commands ++ parseCommands content }] }) ∧
    (∀ (st : ParseState) (content : Str),
      st.curOpen = false →
      processBlock st (.docker, content) =
        { steps := st.steps ++
            [{ id := generateStepID st.steps.length,
               commands := parseCommands content, timeout := fiveMinutes }]
          curOpen := true }) ∧
    (∀ (st : ParseState) (content : Str) (cur : LessonStep),
      st.curOpen = true → st.steps.getLast? = some cur →
      processBlock st (.expect, content) =
        { steps := st.steps.dropLast ++
            [{ cur with expected := trimSpace content }]
          curOpen := false }) ∧
    (∀ (st : ParseState) (content : Str) (cur : LessonStep),
      st.curOpen = true → st.steps.getLast? = some cur →
      processBlock st (.question, content) =
        { steps := st.steps.dropLast ++
            [{ cur with question := trimSpace content }]
          curOpen := false }) ∧
    parseSteps s1md = [s1step] := by
  refine ⟨?_, ?_, ?_, ?_, by decide⟩
  · intro st content cur hopen hlast hexp hq
    simp [processBlock, hopen, hlast, hexp, hq]
  · intro st content hclosed
    cases hg : st.steps.getLast? <;> simp [processBlock, hclosed, hg]
  · intro st content cur hopen hlast
    simp [processBlock, hopen, hlast]
  · intro st content cur hopen hlast
    simp [processBlock, hopen, hlast]

/-- Witness for C9 on concrete parse states. -/
theorem claim_C9_witness :
    processBlock w9open (.docker, ("ls".toList)) =
      { w9open with steps := w9open.steps.dropLast ++
          [{ w9step with
              commands := w9step.commands ++ parseCommands ("ls".toList) }] } ∧
    processBlock w9closed (.docker, ("ls".toList)) =
      { steps := w9closed.steps ++
          [{ id := generateStepID w9closed.steps.length,
             commands := parseCommands ("ls".toList), timeout := fiveMinutes }]
        curOpen := true } ∧
    processBlock w9open (.expect, (" hi ".toList)) =
      { steps := w9open.steps.dropLast ++
          [{ w9step with expected := trimSpace (" hi ".toList) }]
        curOpen := false } ∧
    processBlock w9open (.question, ("why".toList)) =
      { steps := w9open.steps.dropLast ++
          [{ w9step with question := trimSpace ("why".toList) }]
        curOpen := false } :=
  ⟨claim_C9.1 w9open _ w9step (by decide) (by decide) (by decide) (by decide),
   claim_C9.2.1 w9closed _ (by decide),
   claim_C9.2.2.1 w9open _ w9step (by decide) (by decide),
   claim_C9.2.2.2.1 w9open _ w9step (by decide) (by decide)⟩

/-! ## C2 — image selection precedence -/

/-- C2 counterexample: an explicitly set `InstanceConfig.image_name`
(`explicit`) is overridden by the lesson context's primary-container image
(`contimg`), so the explicit image is not the highest-precedence choice. -/
theorem claim_C2_counterexample :
    c2conf.imageName = "explicit".toList ∧ c2conf.imageName ≠ [] ∧
    selectImage c2conf c2get ("pg".toList) = "contimg".toList ∧
    selectImage c2conf c2get ("pg".toList) ≠ c2conf.imageName := by
  decide

/-- C2 (amended): the image-selection precedence of `InstanceNew` is,
highest first: the primary-container image of the current lesson step (else
the first container's image), then the step's image, then the lesson's
default image, then the explicit `InstanceConfig.image_name`; a final empty
choice falls back to the playground's default DinD image.  The explicit
image is used exactly when no lesson-derived image applies (no lesson
context, empty lesson id, failed lesson lookup, or a lesson offering no
image for the step). -/
theorem claim_C2 :
    ∀ (conf : InstanceConfig) (g : Str → Option Lesson) (pg : Str),
    (conf.lessonCtx = none →
      selectImage conf g pg =
        if conf.imageName = [] then pg else conf.imageName) ∧
    (∀ ctx, conf.lessonCtx = some ctx → ctx.lessonID = [] →
      selectImage conf g pg =
        if conf.imageName = [] then pg else conf.imageName) ∧
    (∀ ctx, conf.lessonCtx = some ctx → ctx.lessonID ≠ [] →
      g ctx.lessonID = none →
      selectImage conf g pg =
        if conf.imageName = [] then pg else conf.imageName) ∧
    (∀ ctx ld step c0 cs, conf.lessonCtx = some ctx → ctx.lessonID ≠ [] →
      g ctx.lessonID = some ld →
      0 ≤ ctx.stepIndex → ctx.stepIndex < ld.steps.length →
      ld.steps.getD ctx.stepIndex.toNat {} = step →
      step.containers = c0 :: cs →
      selectImage conf g pg =
        (if ((step.containers.find? (fun c =>
            c.role = "primary".toList)).getD c0).image = [] then pg
         else ((step.containers.find? (fun c =>
            c.role = "primary".toList)).getD c0).image)) ∧
    (∀ ctx ld step, conf.lessonCtx = some ctx → ctx.lessonID ≠ [] →
      g ctx.lessonID = some ld →
      0 ≤ ctx.stepIndex → ctx.stepIndex < ld.steps.length →
      ld.steps.getD ctx.stepIndex.toNat {} = step →
      step.containers = [] → step.image ≠ [] →
      selectImage conf g pg = step.image) ∧
    (∀ ctx ld step, conf.lessonCtx = some ctx → ctx.lessonID ≠ [] →
      g ctx.lessonID = some ld →
      0 ≤ ctx.stepIndex → ctx.stepIndex < ld.steps.length →
      ld.steps.getD ctx.stepIndex.toNat {} = step →
      step.containers = [] → step.image = [] → ld.defaultImage ≠ [] →
      selectImage conf g pg = ld.defaultImage) ∧
    (∀ ctx ld step, conf.lessonCtx = some ctx → ctx.lessonID ≠ [] →
      g ctx.lessonID = some ld →
      0 ≤ ctx.stepIndex → ctx.stepIndex < ld.steps.length →
      ld.steps.getD ctx.stepIndex.toNat {} = step →
      step.containers = [] → step.image = [] → ld.defaultImage = [] →
      selectImage conf g pg =
        if conf.imageName = [] then pg else conf.imageName) ∧
    (∀ ctx ld, conf.lessonCtx = some ctx → ctx.lessonID ≠ [] →
      g ctx.lessonID = some ld →
      ¬(0 ≤ ctx.stepIndex ∧ ctx.stepIndex < ld.steps.length) →
      selectImage conf g pg =
        (if ld.defaultImage ≠ [] then ld.defaultImage
         else if conf.imageName = [] then pg else conf.imageName)) := by
  intro conf g pg
  refine ⟨?_, ?_, ?_, ?_, ?_, ?_, ?_, ?_⟩
  · intro h
    simp [selectImage, h]
  · intro ctx hctx hid
    simp [selectImage, hctx, hid]
  · intro ctx hctx hid hget
    simp [selectImage, hctx, hid, hget]
  · intro ctx ld step c0 cs hctx hid hget h0 hlt hstep hcons
    simp only [selectImage, hctx, hget, if_neg hid, if_pos (⟨h0, hlt⟩ : _ ∧ _),
      hstep]
    rw [hcons]
    cases hf : (c0 :: cs).find? (fun c => c.role = "primary".toList) with
    | some pc => simp [hf]
    | none => simp [hf]
  · intro ctx ld step hctx hid hget h0 hlt hstep hnone himg
    simp only [selectImage, hctx, hget, if_neg hid, if_pos (⟨h0, hlt⟩ : _ ∧ _),
      hstep, hnone]
    simp [himg]
  · intro ctx ld step hctx hid hget h0 hlt hstep hnone himg hdef
    simp only [selectImage, hctx, hget, if_neg hid, if_pos (⟨h0, hlt⟩ : _ ∧ _),
      hstep, hnone]
    simp [himg, hdef]
  · intro ctx ld step hctx hid hget h0 hlt hstep hnone himg hdef
    simp only [selectImage, hctx, hget, if_neg hid, if_pos (⟨h0, hlt⟩ : _ ∧ _),
      hstep, hnone]
    simp [himg, hdef]
  · intro ctx ld hctx hid hget hrange
    simp only [selectImage, hctx, hget, if_neg hid, if_neg hrange]
    by_cases hdef : ld.defaultImage = [] <;> simp [hdef]

/-- Witness for C2 applied to the concrete configuration of the
counterexample (the primary-container branch) and to a context-free
configuration. -/
theorem claim_C2_witness :
    selectImage c2conf c2get ("pg".toList) =
      (if (((c2lesson.steps.getD 0 {}).containers.find? (fun c =>
          c.role = "primary".toList)).getD c2container).image = [] then
        "pg".toList
       else (((c2lesson.steps.getD 0 {}).containers.find? (fun c =>
          c.role = "primary".toList)).getD c2container).image) ∧
    selectImage { imageName := "explicit".toList } c2get ("pg".toList) =
      (if ({ imageName := "explicit".toList } : InstanceConfig).imageName = []
        then "pg".toList
       else ({ imageName := "explicit".toList } : InstanceConfig).imageName) :=
  ⟨(claim_C2 c2conf c2get ("pg".toList)).2.2.2.1
      { lessonID := "L".toList, stepIndex := 0, completed := false }
      c2lesson (c2lesson.steps.getD 0 {}) c2container [] (by decide)
      (by decide) (by decide) (by decide) (by decide) (by decide) (by decide),
   (claim_C2 { imageName := "explicit".toList } c2get ("pg".toList)).1 rfl⟩

/-! ## C4 — hostname assignment lemmas -/

theorem decDigitsAux_fuel :
    ∀ (n f1 f2 : Nat), n ≤ f1 → n ≤ f2 →
      decDigitsAux f1 n = decDigitsAux f2 n := by
  intro n
  induction n using Nat.strong_induction_on with
  | _ n ih =>
    intro f1 f2 h1 h2
    by_cases hn : n = 0
    · subst hn
      cases f1 <;> cases f2 <;> simp [decDigitsAux]
    · obtain ⟨a, rfl⟩ : ∃ a, f1 = a + 1 := ⟨f1 - 1, by omega⟩
      obtain ⟨b, rfl⟩ : ∃ b, f2 = b + 1 := ⟨f2 - 1, by omega⟩
      simp only [decDigitsAux, if_neg hn]
      have hlt : n / 10 < n := Nat.div_lt_self (by omega) (by omega)
      rw [ih (n / 10) hlt a b (by omega) (by omega)]

theorem fromDecDigits_decDigitsAux :
    ∀ (n fuel : Nat), n ≤ fuel →
      fromDecDigits (decDigitsAux fuel n) = n := by
  intro n
  induction n using Nat.strong_induction_on with
  | _ n ih =>
    intro fuel h
    by_cases hn : n = 0
    · subst hn
      cases fuel <;> simp [decDigitsAux, fromDecDigits]
    · obtain ⟨a, rfl⟩ : ∃ a, fuel = a + 1 := ⟨fuel - 1, by omega⟩
      simp only [decDigitsAux, if_neg hn, fromDecDigits]
      have hlt : n / 10 < n := Nat.div_lt_self (by omega) (by omega)
      rw [ih (n / 10) hlt a (by omega)]
      omega

theorem fromDecDigits_decDigits (n : Nat) :
    fromDecDigits (decDigits n) = n :=
  fromDecDigits_decDigitsAux n n le_rfl

theorem decDigitsAux_lt10 :
    ∀ (fuel n d : Nat), d ∈ decDigitsAux fuel n → d < 10 := by
  intro fuel
  induction fuel with
  | zero => intro n d h; simp [decDigitsAux] at h
  | succ a ih =>
    intro n d h
    by_cases hn : n = 0
    · simp [decDigitsAux, hn] at h
    · simp only [decDigitsAux, if_neg hn] at h
      rcases List.mem_cons.mp h with h | h
      · subst h; exact Nat.mod_lt n (by omega)
      · exact ih (n / 10) d h

theorem digitChar_toNat (d : Nat) (h : d < 10) :
    (digitChar d).toNat = 48 + d := by
  interval_cases d <;> rfl

theorem map_digitChar_inj :
    ∀ (l1 l2 : List Nat), (∀ d ∈ l1, d < 10) → (∀ d ∈ l2, d < 10) →
      l1.map digitChar = l2.map digitChar → l1 = l2 := by
  intro l1
  induction l1 with
  | nil =>
    intro l2 _ _ h
    cases l2 with
    | nil => rfl
    | cons b bs => simp at h
  | cons a as ih =>
    intro l2 h1 h2 h
    cases l2 with
    | nil => simp at h
    | cons b bs =>
      simp only [List.map_cons, List.cons.injEq] at h
      have ha : a < 10 := h1 a (List.mem_cons_self a as)
      have hb : b < 10 := h2 b (List.mem_cons_self b bs)
      have hsum : 48 + a = 48 + b := by
        rw [← digitChar_toNat a ha, ← digitChar_toNat b hb, h.1]
      have hab : a = b := by omega
      subst hab
      exact congrArg (List.cons a)
        (ih bs (fun d hd => h1 d (List.mem_cons_of_mem _ hd))
          (fun d hd => h2 d (List.mem_cons_of_mem _ hd)) h.2)

theorem natDecimal_inj : Function.Injective natDecimal := by
  intro a b h
  unfold natDecimal at h
  have hrevmap : ∀ (m k : Nat), m ≠ 0 → k ≠ 0 →
      (decDigits m).reverse.map digitChar =
        (decDigits k).reverse.map digitChar → m = k := by
    intro m k hm hk hmap
    have heq := map_digitChar_inj _ _
      (fun d hd => decDigitsAux_lt10 m m d (List.mem_reverse.mp hd))
      (fun d hd => decDigitsAux_lt10 k k d (List.mem_reverse.mp hd)) hmap
    have := congrArg List.reverse heq
    simp only [List.reverse_reverse] at this
    rw [← fromDecDigits_decDigits m, ← fromDecDigits_decDigits k]
    unfold decDigits
    rw [this]
  have hzero : ∀ m : Nat, m ≠ 0 →
      (decDigits m).reverse.map digitChar ≠ ['0'] := by
    intro m hm hc
    have h0 : ([0] : List Nat).map digitChar = ['0'] := by decide
    have := map_digitChar_inj ([0]) (decDigits m).reverse (by simp)
      (fun d hd => decDigitsAux_lt10 m m d (List.mem_reverse.mp hd))
      (by rw [h0, hc])
    have := congrArg List.reverse this
    simp only [List.reverse_reverse] at this
    apply hm
    rw [← fromDecDigits_decDigits m, ← this]
    simp [fromDecDigits]
  by_cases ha : a = 0 <;> by_cases hb : b = 0
  · omega
  · rw [if_pos ha, if_neg hb] at h
    exact absurd h.symm (hzero b hb)
  · rw [if_neg ha, if_pos hb] at h
    exact absurd h (hzero a ha)
  · rw [if_neg ha, if_neg hb] at h
    exact hrevmap a b ha hb h

theorem nodeName_inj : Function.Injective nodeName := by
  intro a b h
  unfold nodeName at h
  exact natDecimal_inj (List.append_cancel_left h)

theorem firstFreeNodeAux_ge (sid : Str) (instances : List Instance) :
    ∀ (fuel i : Nat), i ≤ firstFreeNodeAux sid instances fuel i := by
  intro fuel
  induction fuel with
  | zero => intro i; simp [firstFreeNodeAux]
  | succ a ih =>
    intro i
    unfold firstFreeNodeAux
    by_cases hc : checkHostnameExists sid (nodeName i) instances = true
    · rw [if_pos hc]
      exact le_trans (by omega) (ih (i + 1))
    · rw [if_neg hc]

theorem firstFreeNodeAux_taken (sid : Str) (instances : List Instance) :
    ∀ (fuel i j : Nat), i ≤ j →
      j < firstFreeNodeAux sid instances fuel i →
      checkHostnameExists sid (nodeName j) instances = true := by
  intro fuel
  induction fuel with
  | zero => intro i j h1 h2; simp [firstFreeNodeAux] at h2; omega
  | succ a ih =>
    intro i j h1 h2
    unfold firstFreeNodeAux at h2
    by_cases hc : checkHostnameExists sid (nodeName i) instances = true
    · rw [if_pos hc] at h2
      by_cases hij : j = i
      · subst hij; exact hc
      · exact ih (i + 1) j (by omega) h2
    · rw [if_neg hc] at h2
      omega

theorem firstFreeNodeAux_free (sid : Str) (instances : List Instance) :
    ∀ (fuel i : Nat),
      firstFreeNodeAux sid instances fuel i = i + fuel ∨
      checkHostnameExists sid
        (nodeName (firstFreeNodeAux sid instances fuel i)) instances =
        false := by
  intro fuel
  induction fuel with
  | zero => intro i; left; simp [firstFreeNodeAux]
  | succ a ih =>
    intro i
    unfold firstFreeNodeAux
    by_cases hc : checkHostnameExists sid (nodeName i) instances = true
    · rw [if_pos hc]
      rcases ih (i + 1) with h | h
      · left; omega
      · right; exact h
    · rw [if_neg hc]
      right
      simpa using hc

theorem exists_free_node (sid : Str) (instances : List Instance) :
    ¬ ∀ j, 1 ≤ j → j ≤ instances.length + 1 →
      checkHostnameExists sid (nodeName j) instances = true := by
  intro hall
  have hsub : (Finset.range (instances.length + 1)).image
      (fun k => nodeName (k + 1)) ⊆
      (instances.map (fun inst => inst.hostname)).toFinset := by
    intro x hx
    simp only [Finset.mem_image, Finset.mem_range] at hx
    obtain ⟨k, hk, rfl⟩ := hx
    have htaken := hall (k + 1) (by omega) (by omega)
    simp only [checkHostnameExists, List.any_eq_true, decide_eq_true_eq]
      at htaken
    obtain ⟨inst, hmem, heq⟩ := htaken
    rw [List.mem_toFinset, List.mem_map]
    exact ⟨inst, hmem, heq⟩
  have hcard1 : ((Finset.range (instances.length + 1)).image
      (fun k => nodeName (k + 1))).card = instances.length + 1 := by
    rw [Finset.card_image_of_injective _
      (fun x y hxy => by simpa using nodeName_inj hxy)]
    exact Finset.card_range _
  have hcard2 := Finset.card_le_card hsub
  have hcard3 := List.toFinset_card_le
    (instances.map (fun inst => inst.hostname))
  simp only [List.length_map] at hcard3
  omega

/-- C4 counterexample: a config with no hostname set whose lesson context
points at a step whose primary container carries hostname `web`, in a
session that already owns an instance named `web`: `InstanceNew` copies the
container hostname into the config before the `nodeN` loop, so the new
instance gets `web` — colliding with the existing instance — while `node1`
is the smallest free `nodeN` and is not assigned. -/
theorem claim_C4_counterexample :
    c4conf.hostname = [] ∧
    instanceHostname c4conf c4get [] c4instances = "web".toList ∧
    checkHostnameExists [] ("web".toList) c4instances = true ∧
    checkHostnameExists [] (nodeName 1) c4instances = false ∧
    instanceHostname c4conf c4get [] c4instances ≠ nodeName 1 := by
  decide

/-- C4 (amended): the hostname `InstanceNew` assigns is the lesson step's
primary-container hostname when that is non-empty — used as-is, with no
uniqueness check — and otherwise, when the configured hostname is also
empty, `nodeN` with `N` the smallest index at least 1 whose `nodeN` no
existing instance of the session carries, which therefore differs from
every existing hostname; without a lesson context the configured hostname
is untouched, and a session holding `node1` and `node3` gets `node2`. -/
theorem claim_C4 :
    (∀ (conf : InstanceConfig) (g : Str → Option Lesson) (sid : Str)
        (instances : List Instance),
      lessonHostname conf g = [] →
      instanceHostname conf g sid instances =
        nodeName (firstFreeNode sid instances)) ∧
    (∀ (conf : InstanceConfig) (g : Str → Option Lesson) (sid : Str)
        (instances : List Instance),
      lessonHostname conf g ≠ [] →
      instanceHostname conf g sid instances = lessonHostname conf g) ∧
    (∀ (conf : InstanceConfig) (g : Str → Option Lesson),
      conf.lessonCtx = none → lessonHostname conf g = conf.hostname) ∧
    (∀ (sid : Str) (instances : List Instance),
      1 ≤ firstFreeNode sid instances ∧
      checkHostnameExists sid (nodeName (firstFreeNode sid instances))
        instances = false ∧
      (∀ j, 1 ≤ j → j < firstFreeNode sid instances →
        checkHostnameExists sid (nodeName j) instances = true)) ∧
    instanceHostname {} (fun _ => none) [] s5instances = "node2".toList := by
  refine ⟨?_, ?_, ?_, ?_, by decide⟩
  · intro conf g sid instances h
    simp [instanceHostname, assignHostname, h]
  · intro conf g sid instances h
    simp [instanceHostname, h]
  · intro conf g h
    simp [lessonHostname, h]
  · intro sid instances
    refine ⟨firstFreeNodeAux_ge sid instances _ 1, ?_,
      fun j h1 h2 => firstFreeNodeAux_taken sid instances _ 1 j h1 h2⟩
    rcases firstFreeNodeAux_free sid instances (instances.length + 1) 1 with
      h | h
    · exfalso
      apply exists_free_node sid instances
      intro j hj1 hj2
      exact firstFreeNodeAux_taken sid instances (instances.length + 1) 1 j
        hj1 (by omega)
    · exact h

/-- Witness for C4: the `nodeN` path on scenario S5's instances, the
container-hostname path on the counterexample's inputs, and a taken index
below the assigned one. -/
theorem claim_C4_witness :
    instanceHostname {} (fun _ => none) [] s5instances =
      nodeName (firstFreeNode [] s5instances) ∧
    instanceHostname c4conf c4get [] c4instances =
      lessonHostname c4conf c4get ∧
    checkHostnameExists [] (nodeName 1) s5instances = true :=
  ⟨claim_C4.1 {} (fun _ => none) [] s5instances (by decide),
   claim_C4.2.1 c4conf c4get [] c4instances (by decide),
   (claim_C4.2.2.2.1 [] s5instances).2.2 1 (by decide) (by decide)⟩

/-! ## C3 — versioning lemmas -/

/-- The version-history invariant: one history record per version bump. -/
theorem memUpdateLesson_char (store : StoreMap) (id : Str) (l : Lesson)
    (cs : Str) (now : Int) (cur : Lesson) (hcur : store id = some cur) :
    ∃ st' l', memUpdateLesson store id l cs now = some (st', l') ∧
      l'.version = cur.version + 1 ∧
      l'.versionHistory = cur.versionHistory ++
        [{ version := cur.version, timestamp := cur.updatedAt,
           changeSummary := cs }] ∧
      st' id = some l' := by
  unfold memUpdateLesson
  rw [hcur]
  exact ⟨_, _, rfl, rfl, rfl, by simp⟩

theorem mongoUpdateLesson_char (store : StoreMap) (id : Str) (l : Lesson)
    (cs : Str) (now : Int) (cur : Lesson) (hcur : store id = some cur) :
    ∃ st' l', mongoUpdateLesson store id l cs now = some (st', l') ∧
      l'.version = cur.version + 1 ∧
      l'.versionHistory = cur.versionHistory ++
        [{ version := cur.version, timestamp := cur.updatedAt,
           changeSummary := cs }] ∧
      st' id = some l' := by
  unfold mongoUpdateLesson
  rw [hcur]
  exact ⟨_, _, rfl, rfl, rfl, by simp⟩

theorem memApplyUpdates_inv :
    ∀ (updates : List (Lesson × Str × Int)) (store : StoreMap) (id : Str),
      (∃ cur, store id = some cur ∧
        (cur.versionHistory.length : Int) + 1 = cur.version) →
      ∃ st', memApplyUpdates store id updates = some st' ∧
        ∃ fin, st' id = some fin ∧
          (fin.versionHistory.length : Int) + 1 = fin.version := by
  intro updates
  induction updates with
  | nil =>
    rintro store id ⟨cur, hcur, hinv⟩
    exact ⟨store, rfl, cur, hcur, hinv⟩
  | cons u rest ih =>
    rintro store id ⟨cur, hcur, hinv⟩
    obtain ⟨l, cs, now⟩ := u
    obtain ⟨st', l', hupd, hv, hh, hlook⟩ :=
      memUpdateLesson_char store id l cs now cur hcur
    have hlen : l'.versionHistory.length = cur.versionHistory.length + 1 := by
      rw [hh]
      simp
    have hinv' : (l'.versionHistory.length : Int) + 1 = l'.version := by
      rw [hlen, hv]
      push_cast
      omega
    obtain ⟨st'', hrun, fin, hfin, hfininv⟩ :=
      ih st' id ⟨l', hlook, hinv'⟩
    refine ⟨st'', ?_, fin, hfin, hfininv⟩
    unfold memApplyUpdates
    rw [hupd]
    exact hrun

theorem mongoApplyUpdates_inv :
    ∀ (updates : List (Lesson × Str × Int)) (store : StoreMap) (id : Str),
      (∃ cur, store id = some cur ∧
        (cur.versionHistory.length : Int) + 1 = cur.version) →
      ∃ st', mongoApplyUpdates store id updates = some st' ∧
        ∃ fin, st' id = some fin ∧
          (fin.versionHistory.length : Int) + 1 = fin.version := by
  intro updates
  induction updates with
  | nil =>
    rintro store id ⟨cur, hcur, hinv⟩
    exact ⟨store, rfl, cur, hcur, hinv⟩
  | cons u rest ih =>
    rintro store id ⟨cur, hcur, hinv⟩
    obtain ⟨l, cs, now⟩ := u
    obtain ⟨st', l', hupd, hv, hh, hlook⟩ :=
      mongoUpdateLesson_char store id l cs now cur hcur
    have hlen : l'.versionHistory.length = cur.versionHistory.length + 1 := by
      rw [hh]
      simp
    have hinv' : (l'.versionHistory.length : Int) + 1 = l'.version := by
      rw [hlen, hv]
      push_cast
      omega
    obtain ⟨st'', hrun, fin, hfin, hfininv⟩ :=
      ih st' id ⟨l', hlook, hinv'⟩
    refine ⟨st'', ?_, fin, hfin, hfininv⟩
    unfold mongoApplyUpdates
    rw [hupd]
    exact hrun

theorem memCreateLesson_fields (store : StoreMap) (l : Lesson) (fid : Str)
    (now : Int) :
    (memCreateLesson store l fid now).2.version = 1 ∧
    (memCreateLesson store l fid now).2.versionHistory = [] ∧
    (memCreateLesson store l fid now).1 (memCreateLesson store l fid now).2.id
      = some (memCreateLesson store l fid now).2 := by
  unfold memCreateLesson
  simp

theorem mongoCreateLesson_fields (store : StoreMap) (l : Lesson) (fid : Str)
    (now : Int) :
    (mongoCreateLesson store l fid now).2.version = 1 ∧
    (mongoCreateLesson store l fid now).2.versionHistory = [] ∧
    (mongoCreateLesson store l fid now).1
      (mongoCreateLesson store l fid now).2.id
      = some (mongoCreateLesson store l fid now).2 := by
  unfold mongoCreateLesson
  simp

/-- C3: in both stores, `CreateLesson` assigns version 1 and an empty
version history; every successful `UpdateLesson` bumps the version by
exactly one and appends exactly one record `{previous version, previous
updated_at, change_summary}` to the history; and after a create followed by
any sequence of successful updates of that lesson, the stored lesson
satisfies `|version_history| + 1 = version`. -/
theorem claim_C3 :
    (∀ (store : StoreMap) (l : Lesson) (fid : Str) (now : Int),
      (memCreateLesson store l fid now).2.version = 1 ∧
      (memCreateLesson store l fid now).2.versionHistory = []) ∧
    (∀ (store : StoreMap) (id : Str) (l : Lesson) (cs : Str) (now : Int)
      (cur : Lesson), store id = some cur →
      ∃ st' l', memUpdateLesson store id l cs now = some (st', l') ∧
        l'.version = cur.version + 1 ∧
        l'.versionHistory = cur.versionHistory ++
          [{ version := cur.version, timestamp := cur.updatedAt,
             changeSummary := cs }] ∧
        st' id = some l') ∧
    (∀ (store : StoreMap) (l : Lesson) (fid : Str) (now : Int)
      (updates : List (Lesson × Str × Int)),
      ∃ st', memApplyUpdates (memCreateLesson store l fid now).1
          (memCreateLesson store l fid now).2.id updates = some st' ∧
        ∃ fin, st' (memCreateLesson store l fid now).2.id = some fin ∧
          (fin.versionHistory.length : Int) = fin.version - 1) ∧
    (∀ (store : StoreMap) (l : Lesson) (fid : Str) (now : Int),
      (mongoCreateLesson store l fid now).2.version = 1 ∧
      (mongoCreateLesson store l fid now).2.versionHistory = []) ∧
    (∀ (store : StoreMap) (id : Str) (l : Lesson) (cs : Str) (now : Int)
      (cur : Lesson), store id = some cur →
      ∃ st' l', mongoUpdateLesson store id l cs now = some (st', l') ∧
        l'.version = cur.version + 1 ∧
        l'.versionHistory = cur.versionHistory ++
          [{ version := cur.version, timestamp := cur.updatedAt,
             changeSummary := cs }] ∧
        st' id = some l') ∧
    (∀ (store : StoreMap) (l : Lesson) (fid : Str) (now : Int)
      (updates : List (Lesson × Str × Int)),
      ∃ st', mongoApplyUpdates (mongoCreateLesson store l fid now).1
          (mongoCreateLesson store l fid now).2.id updates = some st' ∧
        ∃ fin, st' (mongoCreateLesson store l fid now).2.id = some fin ∧
          (fin.versionHistory.length : Int) = fin.version - 1) := by
  refine ⟨?_, memUpdateLesson_char, ?_, ?_, mongoUpdateLesson_char, ?_⟩
  · intro store l fid now
    exact ⟨(memCreateLesson_fields store l fid now).1,
      (memCreateLesson_fields store l fid now).2.1⟩
  · intro store l fid now updates
    obtain ⟨f1, f2, f3⟩ := memCreateLesson_fields store l fid now
    obtain ⟨st', hrun, fin, hfin, hinv⟩ :=
      memApplyUpdates_inv updates (memCreateLesson store l fid now).1
        (memCreateLesson store l fid now).2.id
        ⟨(memCreateLesson store l fid now).2, f3, by rw [f1, f2]; simp⟩
    exact ⟨st', hrun, fin, hfin, by omega⟩
  · intro store l fid now
    exact ⟨(mongoCreateLesson_fields store l fid now).1,
      (mongoCreateLesson_fields store l fid now).2.1⟩
  · intro store l fid now updates
    obtain ⟨f1, f2, f3⟩ := mongoCreateLesson_fields store l fid now
    obtain ⟨st', hrun, fin, hfin, hinv⟩ :=
      mongoApplyUpdates_inv updates (mongoCreateLesson store l fid now).1
        (mongoCreateLesson store l fid now).2.id
        ⟨(mongoCreateLesson store l fid now).2, f3, by rw [f1, f2]; simp⟩
    exact ⟨st', hrun, fin, hfin, by omega⟩

/-- Witness for C3: scenario S2's lesson, created at instant 10 and updated
once with summary `retitle`. -/
theorem claim_C3_witness :
    (∃ st' l',
      memUpdateLesson w3store ("u".toList) s2lesson ("retitle".toList) 20 =
        some (st', l') ∧
      l'.version = (memCreateLesson emptyStore s2lesson ("u".toList) 10).2.version + 1 ∧
      l'.versionHistory =
        (memCreateLesson emptyStore s2lesson ("u".toList) 10).2.versionHistory ++
        [{ version := (memCreateLesson emptyStore s2lesson ("u".toList) 10).2.version,
           timestamp := (memCreateLesson emptyStore s2lesson ("u".toList) 10).2.updatedAt,
           changeSummary := ("retitle".toList) }] ∧
      st' ("u".toList) = some l') ∧
    (∃ st', memApplyUpdates
        (memCreateLesson emptyStore s2lesson ("u".toList) 10).1
        (memCreateLesson emptyStore s2lesson ("u".toList) 10).2.id
        [(s2lesson, ("retitle".toList), 20)] = some st' ∧
      ∃ fin, st' (memCreateLesson emptyStore s2lesson ("u".toList) 10).2.id =
          some fin ∧
        (fin.versionHistory.length : Int) = fin.version - 1) :=
  ⟨claim_C3.2.1 w3store ("u".toList) s2lesson ("retitle".toList) 20
      (memCreateLesson emptyStore s2lesson ("u".toList) 10).2 (by decide),
   claim_C3.2.2.1 emptyStore s2lesson ("u".toList) 10
      [(s2lesson, ("retitle".toList), 20)]⟩

/-! ## C5 / C10 — pagination lemmas -/

theorem totalPages_eq_ceilDiv (a b : Int) (ha : 0 ≤ a) (hb : 0 < b) :
    (if Int.tmod a b > 0 then Int.tdiv a b + 1 else Int.tdiv a b) =
      specCeilDiv a b := by
  rw [Int.tdiv_eq_ediv ha (le_of_lt hb), Int.tmod_eq_emod ha (le_of_lt hb)]
  unfold specCeilDiv
  have hmod := Int.ediv_add_emod a b
  have hmn := Int.emod_nonneg a (ne_of_gt hb)
  have hml := Int.emod_lt_of_pos a hb
  by_cases hr : a % b > 0
  · rw [if_pos hr]
    have hb1 : b * (a / b + 1) = b * (a / b) + b := by ring
    have ha' : a + b - 1 = (a % b - 1) + b * (a / b + 1) := by omega
    rw [ha', Int.add_mul_ediv_left (a % b - 1) (a / b + 1) (ne_of_gt hb),
      Int.ediv_eq_zero_of_lt (show (0 : Int) ≤ a % b - 1 by omega)
        (show a % b - 1 < b by omega)]
    omega
  · rw [if_neg hr]
    have ha' : a + b - 1 = (b - 1) + b * (a / b) := by omega
    rw [ha', Int.add_mul_ediv_left (b - 1) (a / b) (ne_of_gt hb),
      Int.ediv_eq_zero_of_lt (show (0 : Int) ≤ b - 1 by omega)
        (show b - 1 < b by omega)]
    omega

theorem page_le_ceilDiv_iff (a b c : Int) (ha : 0 ≤ a) (hb : 0 < b)
    (hc : 1 ≤ c) : c ≤ specCeilDiv a b ↔ (c - 1) * b < a := by
  unfold specCeilDiv
  have hmod := Int.ediv_add_emod (a + b - 1) b
  have hmn := Int.emod_nonneg (a + b - 1) (ne_of_gt hb)
  have hml := Int.emod_lt_of_pos (a + b - 1) hb
  constructor
  · intro h
    have h1 : (c - 1) * b ≤ ((a + b - 1) / b - 1) * b :=
      mul_le_mul_of_nonneg_right (by omega) (by omega)
    have h2 : ((a + b - 1) / b - 1) * b = b * ((a + b - 1) / b) - b := by ring
    omega
  · intro h
    have h2 : ((a + b - 1) / b) * b = b * ((a + b - 1) / b) := by ring
    have h1 : (c - 1) * b < ((a + b - 1) / b) * b := by omega
    have h3 : c - 1 < (a + b - 1) / b :=
      lt_of_mul_lt_mul_right h1 (by omega)
    omega

theorem memPaginate_spec (sorted : List Lesson) (opts : ListOptions)
    (hp : 1 ≤ opts.page) (hps : 1 ≤ opts.pageSize) :
    ∃ r, memPaginate sorted opts = some r ∧
      r.totalItems = (sorted.length : Int) ∧
      r.totalPages = specCeilDiv sorted.length opts.pageSize ∧
      r.page = opts.page ∧ r.pageSize = opts.pageSize ∧
      (opts.page ≤ r.totalPages →
        r.items = (sorted.drop ((opts.page - 1) * opts.pageSize).toNat).take
          opts.pageSize.toNat) ∧
      (r.totalPages < opts.page → r.items = []) := by
  have hbne : opts.pageSize ≠ 0 := by omega
  have ha : (0 : Int) ≤ sorted.length := by positivity
  have hceil := totalPages_eq_ceilDiv sorted.length opts.pageSize ha (by omega)
  have hpage := page_le_ceilDiv_iff sorted.length opts.pageSize opts.page ha
    (by omega) hp
  have hstart0 : (0 : Int) ≤ (opts.page - 1) * opts.pageSize :=
    mul_nonneg (by omega) (by omega)
  by_cases hout : (opts.page - 1) * opts.pageSize ≥ (sorted.length : Int)
  · have hrun : memPaginate sorted opts = some
        { items := [], totalItems := (sorted.length : Int),
          totalPages :=
            if Int.tmod (sorted.length : Int) opts.pageSize > 0 then
              Int.tdiv (sorted.length : Int) opts.pageSize + 1
            else Int.tdiv (sorted.length : Int) opts.pageSize,
          page := opts.page, pageSize := opts.pageSize } := by
      simp only [memPaginate, goDiv, goMod, if_neg hbne, Option.bind_eq_bind,
        Option.some_bind, if_pos hout]
      rw [if_neg (show ¬ (0 : Int) > (sorted.length : Int) by omega),
        if_neg (show ¬ (0 : Int) < 0 by omega)]
      rfl
    refine ⟨_, hrun, rfl, hceil, rfl, rfl, ?_, fun _ => rfl⟩
    intro hin
    exfalso
    have := hpage.mp (hceil ▸ hin)
    omega
  · push_neg at hout
    by_cases hclamp :
        (opts.page - 1) * opts.pageSize + opts.pageSize >
          (sorted.length : Int)
    · have hrun : memPaginate sorted opts = some
          { items :=
              (sorted.drop ((opts.page - 1) * opts.pageSize).toNat).take
                ((sorted.length : Int) -
                  (opts.page - 1) * opts.pageSize).toNat,
            totalItems := (sorted.length : Int),
            totalPages :=
              if Int.tmod (sorted.length : Int) opts.pageSize > 0 then
                Int.tdiv (sorted.length : Int) opts.pageSize + 1
              else Int.tdiv (sorted.length : Int) opts.pageSize,
            page := opts.page, pageSize := opts.pageSize } := by
        simp only [memPaginate, goDiv, goMod, if_neg hbne,
          Option.bind_eq_bind, Option.some_bind,
          if_neg (show ¬ (opts.page - 1) * opts.pageSize ≥
            (sorted.length : Int) by omega)]
        rw [if_pos hclamp,
          if_pos (show (opts.page - 1) * opts.pageSize <
            (sorted.length : Int) by omega)]
        unfold goSlice
        rw [if_pos ⟨hstart0, by omega, by omega⟩]
        rfl
      refine ⟨_, hrun, rfl, hceil, rfl, rfl, ?_, ?_⟩
      · intro _
        have hlen : ((sorted.drop
            ((opts.page - 1) * opts.pageSize).toNat).length : Int) =
            (sorted.length : Int) - (opts.page - 1) * opts.pageSize := by
          rw [List.length_drop]
          omega
        rw [List.take_of_length_le (by omega),
          List.take_of_length_le (by omega)]
      · intro hgt
        exfalso
        have hgt' : specCeilDiv (sorted.length : Int) opts.pageSize <
            opts.page := by
          rw [← hceil]
          exact hgt
        have := hpage.mpr hout
        omega
    · have hrun : memPaginate sorted opts = some
          { items :=
              (sorted.drop ((opts.page - 1) * opts.pageSize).toNat).take
                ((opts.page - 1) * opts.pageSize + opts.pageSize -
                  (opts.page - 1) * opts.pageSize).toNat,
            totalItems := (sorted.length : Int),
            totalPages :=
              if Int.tmod (sorted.length : Int) opts.pageSize > 0 then
                Int.tdiv (sorted.length : Int) opts.pageSize + 1
              else Int.tdiv (sorted.length : Int) opts.pageSize,
            page := opts.page, pageSize := opts.pageSize } := by
        simp only [memPaginate, goDiv, goMod, if_neg hbne,
          Option.bind_eq_bind, Option.some_bind,
          if_neg (show ¬ (opts.page - 1) * opts.pageSize ≥
            (sorted.length : Int) by omega)]
        rw [if_neg hclamp,
          if_pos (show (opts.page - 1) * opts.pageSize <
            (opts.page - 1) * opts.pageSize + opts.pageSize by omega)]
        unfold goSlice
        rw [if_pos ⟨hstart0, by omega, by omega⟩]
        rfl
      refine ⟨_, hrun, rfl, hceil, rfl, rfl, ?_, ?_⟩
      · intro _
        have heq : ((opts.page - 1) * opts.pageSize + opts.pageSize -
            (opts.page - 1) * opts.pageSize) = opts.pageSize := by omega
        rw [heq]
      · intro hgt
        exfalso
        have hgt' : specCeilDiv (sorted.length : Int) opts.pageSize <
            opts.page := by
          rw [← hceil]
          exact hgt
        have := hpage.mpr hout
        omega

/-- C5: for `page ≥ 1` and `page_size ≥ 1`, `ListLessons` returns a result
whose `total_items` is the number of lessons passing the filter, whose
`total_pages` is `⌈total_items/page_size⌉`, and whose `items` are the
requested page's slice of the filtered, sorted list — empty (with totals
still correct) when the page lies beyond the last; the same holds for the
Mongo implementation over the documents matching its query; and with 25
stored lessons and page size 10, page 1 yields 10 items with totals
`(25, 3)` and page 3 yields 5 items. -/
theorem claim_C5 :
    (∀ (allLessons : List Lesson) (opts : ListOptions),
      1 ≤ opts.page → 1 ≤ opts.pageSize →
      ∃ r, memListLessons allLessons opts = some r ∧
        r.totalItems = ((filterLessons opts.filter allLessons).length : Int) ∧
        r.totalPages = specCeilDiv r.totalItems opts.pageSize ∧
        (opts.page ≤ r.totalPages →
          r.items = ((memSortLessons opts.sort
              (filterLessons opts.filter allLessons)).drop
            ((opts.page - 1) * opts.pageSize).toNat).take
            opts.pageSize.toNat) ∧
        (r.totalPages < opts.page → r.items = [])) ∧
    (∀ (matching : List Lesson) (opts : ListOptions),
      1 ≤ opts.page → 1 ≤ opts.pageSize →
      ∃ r, mongoListLessons matching opts = some r ∧
        r.totalItems = (matching.length : Int) ∧
        r.totalPages = specCeilDiv r.totalItems opts.pageSize ∧
        r.items = (matching.drop
          ((opts.page - 1) * opts.pageSize).toNat).take
          opts.pageSize.toNat ∧
        (r.totalPages < opts.page → r.items = [])) ∧
    (memListLessons s3lessons
        { page := 1, pageSize := 10, sort := [], filter := [] }).map
      (fun r => (r.items.length, r.totalItems, r.totalPages)) =
      some (10, 25, 3) ∧
    (memListLessons s3lessons
        { page := 3, pageSize := 10, sort := [], filter := [] }).map
      (fun r => (r.items.length, r.totalItems, r.totalPages)) =
      some (5, 25, 3) := by
  refine ⟨?_, ?_, by decide, by decide⟩
  · intro allLessons opts hp hps
    obtain ⟨r, hrun, h1, h2, h3, h4, h5, h6⟩ := memPaginate_spec
      (memSortLessons opts.sort (filterLessons opts.filter allLessons)) opts
      hp hps
    have hlen : (memSortLessons opts.sort
        (filterLessons opts.filter allLessons)).length =
        (filterLessons opts.filter allLessons).length := by
      unfold memSortLessons
      split_ifs
      · exact List.length_mergeSort _
      · rfl
    refine ⟨r, hrun, by rw [h1, hlen], ?_, h5, h6⟩
    rw [h2, h1, hlen]
  · intro matching opts hp hps
    have hbne : opts.pageSize ≠ 0 := by omega
    have ha : (0 : Int) ≤ matching.length := by positivity
    have hceil := totalPages_eq_ceilDiv matching.length opts.pageSize ha
      (by omega)
    have hpage := page_le_ceilDiv_iff matching.length opts.pageSize opts.page
      ha (by omega) hp
    have hrun : mongoListLessons matching opts = some
        { items := (matching.drop
            ((opts.page - 1) * opts.pageSize).toNat).take
            opts.pageSize.toNat,
          totalItems := (matching.length : Int),
          totalPages :=
            if Int.tmod (matching.length : Int) opts.pageSize > 0 then
              Int.tdiv (matching.length : Int) opts.pageSize + 1
            else Int.tdiv (matching.length : Int) opts.pageSize,
          page := opts.page, pageSize := opts.pageSize } := by
      simp only [mongoListLessons, goDiv, goMod,
        if_neg (show ¬ opts.page < 1 by omega),
        if_neg (show ¬ opts.pageSize < 1 by omega), if_neg hbne,
        Option.bind_eq_bind, Option.some_bind]
      rfl
    refine ⟨_, hrun, rfl, hceil, rfl, ?_⟩
    intro hgt
    have hgt' : specCeilDiv (matching.length : Int) opts.pageSize <
        opts.page := by
      rw [← hceil]
      exact hgt
    have hge : (matching.length : Int) ≤ (opts.page - 1) * opts.pageSize := by
      by_contra hcon
      push_neg at hcon
      have := hpage.mpr hcon
      omega
    have hged : matching.length ≤ ((opts.page - 1) * opts.pageSize).toNat := by
      omega
    rw [List.drop_eq_nil_of_le hged, List.take_nil]

/-- Witness for C5 on scenario S3's 25 lessons with page size 10. -/
theorem claim_C5_witness :
    (∃ r, memListLessons s3lessons
        { page := 3, pageSize := 10, sort := [], filter := [] } = some r ∧
      r.totalItems = ((filterLessons [] s3lessons).length : Int) ∧
      r.totalPages = specCeilDiv r.totalItems 10 ∧
      ((3 : Int) ≤ r.totalPages →
        r.items = ((memSortLessons [] (filterLessons [] s3lessons)).drop
          (((3 : Int) - 1) * 10).toNat).take (10 : Int).toNat) ∧
      (r.totalPages < 3 → r.items = [])) ∧
    (∃ r, mongoListLessons s3lessons
        { page := 4, pageSize := 10, sort := [], filter := [] } = some r ∧
      r.totalItems = (s3lessons.length : Int) ∧
      r.totalPages = specCeilDiv r.totalItems 10 ∧
      r.items = (s3lessons.drop (((4 : Int) - 1) * 10).toNat).take
        (10 : Int).toNat ∧
      (r.totalPages < 4 → r.items = [])) :=
  ⟨claim_C5.1 s3lessons { page := 3, pageSize := 10, sort := [], filter := [] }
      (by decide) (by decide),
   claim_C5.2.1 s3lessons
      { page := 4, pageSize := 10, sort := [], filter := [] }
      (by decide) (by decide)⟩

/-- C10: the in-memory `ListLessons` divides by `opts.PageSize` unguarded,
so a call with page size 0 reaches a division by zero (the modelled
panic); the Mongo `ListLessons` normalises `page < 1` to 1 and
`page_size < 1` to 20 first and is total for all inputs. -/
theorem claim_C10 :
    (∀ (allLessons : List Lesson) (opts : ListOptions), opts.pageSize = 0 →
      memListLessons allLessons opts = none) ∧
    (∀ (matching : List Lesson) (opts : ListOptions),
      ∃ r, mongoListLessons matching opts = some r ∧
        r.page = (if opts.page < 1 then 1 else opts.page) ∧
        r.pageSize = (if opts.pageSize < 1 then 20 else opts.pageSize)) := by
  constructor
  · intro allLessons opts h
    simp [memListLessons, memPaginate, goDiv, h]
  · intro matching opts
    have hbne : (if opts.pageSize < 1 then 20 else opts.pageSize) ≠ 0 := by
      split_ifs <;> omega
    have hrun : mongoListLessons matching opts = some
        { items := (matching.drop
            (((if opts.page < 1 then 1 else opts.page) - 1) *
              (if opts.pageSize < 1 then 20 else opts.pageSize)).toNat).take
            (if opts.pageSize < 1 then 20 else opts.pageSize).toNat,
          totalItems := (matching.length : Int),
          totalPages :=
            if Int.tmod (matching.length : Int)
                (if opts.pageSize < 1 then 20 else opts.pageSize) > 0 then
              Int.tdiv (matching.length : Int)
                (if opts.pageSize < 1 then 20 else opts.pageSize) + 1
            else Int.tdiv (matching.length : Int)
              (if opts.pageSize < 1 then 20 else opts.pageSize),
          page := if opts.page < 1 then 1 else opts.page,
          pageSize := if opts.pageSize < 1 then 20 else opts.pageSize } := by
      simp only [mongoListLessons, goDiv, goMod, if_neg hbne,
        Option.bind_eq_bind, Option.some_bind]
      rfl
    exact ⟨_, hrun, rfl, rfl⟩

/-- Witness for C10: page size 0 panics the in-memory listing on a concrete
store, and the Mongo listing normalises the same options. -/
theorem claim_C10_witness :
    memListLessons s3lessons
      { page := 1, pageSize := 0, sort := [], filter := [] } = none ∧
    (∃ r, mongoListLessons s3lessons
        { page := 0, pageSize := 0, sort := [], filter := [] } = some r ∧
      r.page = (if (0 : Int) < 1 then 1 else 0) ∧
      r.pageSize = (if (0 : Int) < 1 then 20 else 0)) :=
  ⟨claim_C10.1 s3lessons
      { page := 1, pageSize := 0, sort := [], filter := [] } rfl,
   claim_C10.2 s3lessons
      { page := 0, pageSize := 0, sort := [], filter := [] }⟩

end LessonCraft
